import Mathlib

/-!
Riya: category matching pipeline.

A shallow embedding of `riya.go` (pattern catalog, matcher builder, category
resolver, filter pipeline, per-line loop, statistics) together with the
properties stated for it.

Conventions of the embedding.

* Go `string` is `String`; input that is not valid UTF-8 is outside the model.
* Standard input is the list of its lines.  `bufio.Scanner` keeps its default
  buffer of 64 KiB, so `Scan` fails at the first line of 65536 bytes or more and
  the loop ends there.  The length is taken on the text of the line, which is
  exact for lines ended by a bare newline (a carriage return that the scanner
  strips is not counted).
* A Go `map` that the program ranges over is a list of its entries in the order
  the `range` loop visits them.  Go randomises that order at every loop, so each
  loop that matters takes its visiting order as an argument.
* `regexp.Compile` and `(*Regexp).MatchString` belong to the Go standard
  library.  The program is embedded over an arbitrary engine (`Regexp R`);
  `goRegexp` is a reference engine for a small fragment of the RE2 syntax.
* `categoryStats` counters are Go `int`; a run increments a counter at most once
  per input line, so they are taken in `Nat`.
* A Go result pair `(value, error)` is an `Except`: `.error` stands for the
  return of `nil` together with an error.
-/

namespace Riya

/-! ## The regular-expression engine (Go standard library) -/

/-- The two entry points of Go's `regexp` package that the program uses.
`Compile` either fails with a message or yields a compiled expression. -/
structure Regexp (R : Type) where
  Compile : String → Except String R
  MatchString : R → String → Bool

deriving instance DecidableEq for Except

/-! ## Data model -/

/-- The `Category` struct of the pattern file. -/
structure Category where
  Description : String
  Patterns : List String
  Examples : List String
deriving Repr, DecidableEq

/-- The `PatternFile` struct; `Categories` is the map, as the list of its
entries in visiting order. -/
structure PatternFile where
  Categories : List (String × Category)
deriving Repr, DecidableEq

/-- The `categoryPriority` table. -/
def categoryPriority : List (String × Nat) :=
  [("x", 1), ("v", 2), ("f", 3), ("j", 4), ("l", 5), ("b", 6), ("p", 7), ("s", 8),
   ("c", 9), ("g", 10), ("d", 11), ("m", 12), ("r", 13), ("misc", 14), ("k", 15)]

/-- The map read `categoryPriority[cat]`: the stored rank, and Go's zero value
`0` for a key that is absent. -/
def priorityOf (cat : String) : Nat :=
  match categoryPriority.lookup cat with
  | some p => p
  | none => 0

/-- The `categoryColors` table. -/
def categoryColors : List (String × String) :=
  [("s", "\x1b[31m"), ("g", "\x1b[35m"), ("p", "\x1b[34m"), ("b", "\x1b[33m"),
   ("c", "\x1b[36m"), ("j", "\x1b[38;5;220m"), ("l", "\x1b[38;5;130m"),
   ("k", "\x1b[38;5;205m"), ("f", "\x1b[34m"), ("v", "\x1b[38;5;208m"),
   ("x", "\x1b[32m"), ("d", "\x1b[38;5;51m"), ("m", "\x1b[38;5;118m"),
   ("r", "\x1b[38;5;183m"), ("misc", "\x1b[37m")]

/-- The map read `categoryColors[cat]`, the empty string for an absent key. -/
def colorOf (cat : String) : String :=
  match categoryColors.lookup cat with
  | some c => c
  | none => ""

/-- The constant `colorReset`. -/
def colorReset : String := "\x1b[0m"

/-! ## Category resolver (the best-category loop of `main`) -/

/-- The two loop variables `bestCat` and `bestPrio`. -/
structure Best where
  bestCat : String
  bestPrio : Nat
deriving Repr, DecidableEq

/-- One iteration of `for re, cat := range regexMap`. -/
def bestStep {R : Type} (E : Regexp R) (line : String) (b : Best) (e : R × String) : Best :=
  if E.MatchString e.1 line then
    let prio := priorityOf e.2
    if prio < b.bestPrio then { bestCat := e.2, bestPrio := prio } else b
  else b

/-- The whole best-category loop, started from `bestCat = ""`, `bestPrio = 9999`;
`visit` lists the entries of `regexMap` in the order this execution of the loop
visits them. -/
def bestLoop {R : Type} (E : Regexp R) (visit : List (R × String)) (line : String) : Best :=
  visit.foldl (bestStep E line) { bestCat := "", bestPrio := 9999 }

/-- The value of `bestCat` after the loop; `""` stands for "no category". -/
def bestCategory {R : Type} (E : Regexp R) (visit : List (R × String)) (line : String) : String :=
  (bestLoop E visit line).bestCat

/-- The set of keys of `categoryPriority`. -/
def knownCategory (cat : String) : Prop := cat ∈ categoryPriority.map Prod.fst

instance (cat : String) : Decidable (knownCategory cat) := by
  unfold knownCategory; infer_instance

/-! ## String helpers (Go package `strings`) -/

/-- Go's `unicode.IsSpace`, the test used by `strings.TrimSpace`. -/
def isSpace (c : Char) : Bool :=
  c == '\t' || c == '\n' || c == '\x0b' || c == '\x0c' || c == '\r' || c == ' ' ||
  c == '\u0085' || c == '\u00a0' || c == '\u1680' ||
  (0x2000 ≤ c.toNat && c.toNat ≤ 0x200a) ||
  c == '\u2028' || c == '\u2029' || c == '\u202f' || c == '\u205f' || c == '\u3000'

/-- Removes the leading white space of a character list. -/
def trimLeft : List Char → List Char
  | [] => []
  | c :: cs => if isSpace c then trimLeft cs else c :: cs

/-- Go's `strings.TrimSpace`. -/
def TrimSpace (s : String) : String :=
  ⟨(trimLeft (trimLeft s.data).reverse).reverse⟩

/-- Splits a character list at every occurrence of `sep`. -/
def splitChars (sep : Char) : List Char → List (List Char)
  | [] => [[]]
  | c :: cs =>
    if c = sep then [] :: splitChars sep cs
    else
      match splitChars sep cs with
      | [] => [[c]]
      | h :: t => (c :: h) :: t

/-- Go's `strings.Split(s, sep)` for a separator of one character. -/
def Split (s : String) (sep : Char) : List String :=
  (splitChars sep s.data).map String.mk

/-- Go's `strings.Contains(s, substr)` for a substring of one character. -/
def Contains (s : String) (c : Char) : Bool :=
  s.data.contains c

/-- Go's `strings.TrimPrefix`. -/
def TrimPrefix (s pre : String) : String :=
  if pre.data.isPrefixOf s.data then ⟨s.data.drop pre.data.length⟩ else s

/-! ## Matcher builder -/

/-- The inner loop `for _, pattern := range catData.Patterns` of
`buildCategoryRegexMap`, for the category key `k`; `result` is the map built
so far.  Every `regexp.Compile` yields a fresh pointer, hence a new entry. -/
def compilePatterns {R : Type} (E : Regexp R) (k : String) :
    List String → List (R × String) → Except String (List (R × String))
  | [], result => .ok result
  | pattern :: rest, result =>
    match E.Compile ("(?i)" ++ pattern) with
    | .error err =>
      .error ("failed to compile pattern " ++ pattern ++ " for category " ++ k ++ ": " ++ err)
    | .ok re => compilePatterns E k rest (result ++ [(re, k)])

/-- The loop `for k, catData := range pf.Categories` of the `"all"` branch. -/
def compileAll {R : Type} (E : Regexp R) :
    List (String × Category) → List (R × String) → Except String (List (R × String))
  | [], result => .ok result
  | (k, catData) :: rest, result =>
    match compilePatterns E k catData.Patterns result with
    | .error err => .error err
    | .ok result => compileAll E rest result

/-- The outer loop `for _, cat := range cats` of `buildCategoryRegexMap`. -/
def buildLoop {R : Type} (E : Regexp R) (pf : PatternFile) :
    List String → List (R × String) → Except String (List (R × String))
  | [], result => .ok result
  | cat :: cats, result =>
    if cat = "all" then
      match compileAll E pf.Categories result with
      | .error err => .error err
      | .ok result => buildLoop E pf cats result
    else
      match pf.Categories.lookup cat with
      | none => buildLoop E pf cats result
      | some catData =>
        match compilePatterns E cat catData.Patterns result with
        | .error err => .error err
        | .ok result => buildLoop E pf cats result

/-- The function `buildCategoryRegexMap`: the matcher set as the list of its
`(matcher, category)` entries, or the error. -/
def buildCategoryRegexMap {R : Type} (E : Regexp R) (pf : PatternFile) (cats : List String) :
    Except String (List (R × String)) :=
  buildLoop E pf cats []

/-! ## Filter patterns -/

/-- Lines 216 to 218 of `parseFilterPatterns`: the rewriting of a trimmed token
that holds no backslash, caret or dollar sign. -/
def rewriteToken (p : String) : String :=
  if !Contains p '\\' && !Contains p '^' && !Contains p '$' then
    "\\." ++ TrimPrefix p "." ++ "(\\?|#|$)"
  else p

/-- The loop `for _, p := range patterns` of `parseFilterPatterns`. -/
def parseFilterLoop {R : Type} (E : Regexp R) : List String → List R → Except String (List R)
  | [], regexes => .ok regexes
  | p :: rest, regexes =>
    let p := TrimSpace p
    if p = "" then parseFilterLoop E rest regexes
    else
      let p := rewriteToken p
      match E.Compile ("(?i)" ++ p) with
      | .error err => .error ("invalid pattern " ++ p ++ ": " ++ err)
      | .ok re => parseFilterLoop E rest (regexes ++ [re])

/-- The function `parseFilterPatterns`. -/
def parseFilterPatterns {R : Type} (E : Regexp R) (patternStr : String) :
    Except String (List R) :=
  if patternStr = "" then .ok []
  else parseFilterLoop E (Split patternStr ',') []

/-- The function `matchesAnyPattern`. -/
def matchesAnyPattern {R : Type} (E : Regexp R) (line : String) : List R → Bool
  | [] => false
  | re :: rest => if E.MatchString re line then true else matchesAnyPattern E line rest

/-! ## Flags, output and the per-line loop -/

/-- The command-line flags after `flag.Parse()`. -/
structure Flags where
  flagHelp : Bool := false
  flagList : Bool := false
  flagNoColor : Bool := false
  flagAll : Bool := false
  flagSQL : Bool := false
  flagGraphQL : Bool := false
  flagPHP : Bool := false
  flagBackup : Bool := false
  flagConfig : Bool := false
  flagJSJSON : Bool := false
  flagLogs : Bool := false
  flagCerts : Bool := false
  flagFramework : Bool := false
  flagVCS : Bool := false
  flagArchive : Bool := false
  flagCloudInfra : Bool := false
  flagAuthAdmin : Bool := false
  flagDirs : Bool := false
  flagMisc : Bool := false
  flagExclude : String := ""
  flagInclude : String := ""
  flagOutputFile : String := ""
  flagUnique : Bool := false
  flagStats : Bool := false
deriving Repr, DecidableEq

/-- The function `colorize`. -/
def colorize (fl : Flags) (text color : String) : String :=
  if fl.flagNoColor || fl.flagOutputFile != "" then text
  else color ++ text ++ colorReset

/-- One call `fmt.Fprintln(writer, colorize(line, color))`: the line and the
category it won, and the text handed to the writer. -/
structure Emission where
  line : String
  category : String
  text : String
deriving Repr, DecidableEq

/-- The mutable state of the scanning loop: the keys of `seenURLs`, the map
`categoryStats`, and the emissions made so far, oldest first. -/
structure LoopState where
  seenURLs : List String := []
  categoryStats : List (String × Nat) := []
  emitted : List Emission := []
deriving Repr, DecidableEq

/-- The statement `categoryStats[cat]++`. -/
def increment : List (String × Nat) → String → List (String × Nat)
  | [], cat => [(cat, 1)]
  | (k, n) :: rest, cat =>
    if k = cat then (k, n + 1) :: rest else (k, n) :: increment rest cat

/-- The loop body after the dedup check (lines 346 to 376): exclude, include,
resolver, then the count or the emission; `visit` is the order in which this
iteration's `range regexMap` visits the matcher set. -/
def classifyLine {R : Type} (E : Regexp R) (fl : Flags) (excludePatterns includePatterns : List R)
    (st : LoopState) (line : String) (visit : List (R × String)) : LoopState :=
  if excludePatterns.length > 0 && matchesAnyPattern E line excludePatterns then st
  else if includePatterns.length > 0 && !matchesAnyPattern E line includePatterns then st
  else
    let bestCat := bestCategory E visit line
    if bestCat != "" then
      if fl.flagStats then
        { st with categoryStats := increment st.categoryStats bestCat }
      else
        { st with emitted := st.emitted ++
            [{ line := line, category := bestCat, text := colorize fl line (colorOf bestCat) }] }
    else st

/-- The body of `for scanner.Scan()`, for one line: the dedup check (lines 338
to 344), then the rest of the body. -/
def processLine {R : Type} (E : Regexp R) (fl : Flags) (excludePatterns includePatterns : List R)
    (st : LoopState) (line : String) (visit : List (R × String)) : LoopState :=
  if fl.flagUnique then
    if st.seenURLs.contains line then st
    else
      classifyLine E fl excludePatterns includePatterns
        { st with seenURLs := line :: st.seenURLs } line visit
  else classifyLine E fl excludePatterns includePatterns st line visit

/-- The constant `bufio.MaxScanTokenSize`, the size that the buffer of a
`bufio.Scanner` cannot exceed when `Buffer` is never called. -/
def MaxScanTokenSize : Nat := 64 * 1024

/-- The scanner cannot deliver the line: the line and its newline do not fit the
buffer, `scanner.Scan()` returns false and `scanner.Err()` is `ErrTooLong`. -/
def tooLong (line : String) : Bool :=
  decide (MaxScanTokenSize ≤ line.utf8ByteSize)

/-- The loop `for scanner.Scan()` over the lines of standard input, from a given
state.  It ends at the end of the input or at the first line that the scanner
cannot deliver.  Every line comes with the visiting order of its resolver
loop. -/
def scanLoop {R : Type} (E : Regexp R) (fl : Flags) (excludePatterns includePatterns : List R) :
    LoopState → List (String × List (R × String)) → LoopState
  | st, [] => st
  | st, (line, visit) :: rest =>
    if tooLong line then st
    else
      scanLoop E fl excludePatterns includePatterns
        (processLine E fl excludePatterns includePatterns st line visit) rest

/-- The value of `scanner.Err()` after the loop: the text of `ErrTooLong` when
the loop ended at a line that is too long, nothing at the end of the input. -/
def scannerErr {V : Type} (input : List (String × V)) : Option String :=
  if input.any (fun e => tooLong e.1) then some "bufio.Scanner: token too long" else none

/-- The accumulation of `totalMatches` over `categoryStats`, visited in the
order `visit`. -/
def totalMatches (visit : List (String × Nat)) : Nat :=
  visit.foldl (fun total e => total + e.2) 0

/-! ## The program -/

/-- The choices of the Go runtime during a run: the order in which a `range`
over a map visits the entries, for the `flags` map of `selectedCategories`, for
`regexMap` at the resolver loop of the `k`-th line, and for `categoryStats` at
the end.  Each function is meant to return a permutation of its argument. -/
structure MapOrders (R : Type) where
  flags : List (String × Bool) → List (String × Bool)
  regexMap : Nat → List (R × String) → List (R × String)
  categoryStats : List (String × Nat) → List (String × Nat)

/-- The function `selectedCategories`; `order` is the order in which the
`flags` map is visited. -/
def selectedCategories (fl : Flags) (order : List (String × Bool) → List (String × Bool)) :
    List String :=
  if fl.flagAll || (!fl.flagSQL && !fl.flagGraphQL && !fl.flagPHP && !fl.flagBackup &&
      !fl.flagConfig && !fl.flagJSJSON && !fl.flagLogs && !fl.flagCerts &&
      !fl.flagFramework && !fl.flagVCS && !fl.flagArchive && !fl.flagCloudInfra &&
      !fl.flagAuthAdmin && !fl.flagDirs && !fl.flagMisc) then ["all"]
  else
    ((order
      [("s", fl.flagSQL), ("g", fl.flagGraphQL), ("p", fl.flagPHP), ("b", fl.flagBackup),
       ("c", fl.flagConfig), ("j", fl.flagJSJSON), ("l", fl.flagLogs), ("k", fl.flagCerts),
       ("f", fl.flagFramework), ("v", fl.flagVCS), ("x", fl.flagArchive),
       ("d", fl.flagCloudInfra), ("m", fl.flagAuthAdmin), ("r", fl.flagDirs),
       ("misc", fl.flagMisc)]).filter (fun e => e.2)).map Prod.fst

/-- The function `printLists`, as the lines it prints. -/
def printLists (fl : Flags) (pf : PatternFile) : List String → List String
  | [] => []
  | cat :: cats =>
    match pf.Categories.lookup cat with
    | none => ("Unknown category key: " ++ cat) :: printLists fl pf cats
    | some catData =>
      [colorize fl ("Category [" ++ cat ++ "] - " ++ catData.Description ++ ":") (colorOf cat),
        "Patterns:"] ++
      catData.Patterns.map (fun p => "  • " ++ p) ++
      ["Examples:"] ++
      catData.Examples.map (fun e => "  • " ++ colorize fl e (colorOf cat)) ++
      [""] ++ printLists fl pf cats

/-- The read `pf.Categories[cat].Description`, empty for an absent key. -/
def descriptionOf (pf : PatternFile) (cat : String) : String :=
  match pf.Categories.lookup cat with
  | some catData => catData.Description
  | none => ""

/-- The statistics block (lines 380 to 395), as the lines written; `visit` is
`categoryStats` in the order the final loop visits it. -/
def statsReport (fl : Flags) (pf : PatternFile) (visit : List (String × Nat)) : List String :=
  ["", "=== Match Statistics ==="] ++
  visit.map (fun e =>
    colorize fl "●" (colorOf e.1) ++ " [" ++ e.1 ++ "] " ++ descriptionOf pf e.1 ++ ": " ++
      toString e.2 ++ " matches") ++
  ["", "Total matches: " ++ toString (totalMatches visit)]

/-- The lines of standard input, each with the order in which the resolver loop
of that line visits `regexMap`; `k` numbers the first line. -/
def attachOrders {R : Type} (order : Nat → List (R × String) → List (R × String))
    (regexMap : List (R × String)) : Nat → List String → List (String × List (R × String))
  | _, [] => []
  | k, line :: rest => (line, order k regexMap) :: attachOrders order regexMap (k + 1) rest

/-- How a run of `main` ends: after the help text, after the pattern listing
with the lines printed, with a message on standard error and exit status 1, or
after the scanning loop with its final state, the lines written to the output
and the text on standard error. -/
inductive Outcome where
  | help
  | listed (stdout : List String)
  | fatal (stderr : String)
  | finished (st : LoopState) (written : List String) (stderr : String)
deriving Repr, DecidableEq

/-- The function `main` from line 282 on, with `cats` the selected categories,
`created` the result of `os.Create` when an output file is requested, and
`input` the lines of standard input. -/
def mainWith {R : Type} (E : Regexp R) (orders : MapOrders R) (fl : Flags) (pf : PatternFile)
    (cats : List String) (created : Except String Unit) (input : List String) : Outcome :=
  if fl.flagList then .listed (printLists fl pf cats)
  else
    match buildCategoryRegexMap E pf cats with
    | .error err => .fatal ("Regex compilation error: " ++ err ++ "\n")
    | .ok regexMap =>
      if regexMap.length = 0 then
        .fatal "No valid patterns found for the selected categories\n"
      else
        match parseFilterPatterns E fl.flagExclude with
        | .error err => .fatal ("Error parsing exclude patterns: " ++ err ++ "\n")
        | .ok excludePatterns =>
          match parseFilterPatterns E fl.flagInclude with
          | .error err => .fatal ("Error parsing include patterns: " ++ err ++ "\n")
          | .ok includePatterns =>
            match (if fl.flagOutputFile != "" then created else .ok ()) with
            | .error err => .fatal ("Error creating output file: " ++ err ++ "\n")
            | .ok _ =>
              let lines := attachOrders orders.regexMap regexMap 0 input
              let st := scanLoop E fl excludePatterns includePatterns {} lines
              let written :=
                st.emitted.map Emission.text ++
                  (if fl.flagStats then statsReport fl pf (orders.categoryStats st.categoryStats)
                   else [])
              match scannerErr lines with
              | some err => .finished st written ("Error reading input: " ++ err ++ "\n")
              | none => .finished st written ""

/-- The function `main`; `loaded` is the result of `loadPatterns("patterns.yml")`. -/
def main {R : Type} (E : Regexp R) (orders : MapOrders R) (fl : Flags)
    (loaded : Except String PatternFile) (created : Except String Unit)
    (input : List String) : Outcome :=
  if fl.flagHelp then .help
  else
    match loaded with
    | .error err => .fatal ("Failed to load pattern file: " ++ err ++ "\n")
    | .ok pf => mainWith E orders fl pf (selectedCategories fl orders.flags) created input

/-! ## A reference engine for a fragment of Go's `regexp`

`goRegexp` follows the documented RE2 semantics of Go's `regexp` package on the
patterns `(?i)body` whose body is built from ASCII literals, backslash-escaped
ASCII punctuation, groups `( )`, alternation `|` and the end-of-text anchor `$`
(no `m` flag, so `$` matches at the end of the text only).  Every pattern the
program compiles starts with `(?i)`.  Anything outside the fragment is answered
with the error `unsupported`; nothing is claimed about Go there. -/

/-- Abstract syntax of the fragment. -/
inductive Re where
  | empty
  | lit (c : Char)
  | eot
  | seq (a b : Re)
  | alt (a b : Re)
deriving Repr, DecidableEq

/-- Case folding of `(?i)` for an ASCII pattern character `p`: the text
character `c` matches when it equals `p` up to ASCII case, or lies in the
Unicode simple-fold orbit of `p`, which adds U+212A (Kelvin sign) to `k` and
U+017F (long s) to `s`. -/
def foldEq (p c : Char) : Bool :=
  p.toLower == c.toLower ||
  (p.toLower == 'k' && c == '\u212a') ||
  (p.toLower == 's' && c == '\u017f')

/-- Backtracking match of `re` at the head of `xs`; `k` receives the rest of the
text after the match. -/
def matchHere : Re → List Char → (List Char → Bool) → Bool
  | .empty, xs, k => k xs
  | .lit p, xs, k =>
    match xs with
    | [] => false
    | c :: cs => foldEq p c && k cs
  | .eot, xs, k => xs.isEmpty && k xs
  | .seq a b, xs, k => matchHere a xs (fun ys => matchHere b ys k)
  | .alt a b, xs, k => matchHere a xs k || matchHere b xs k

/-- Unanchored search: a match starting at some position of the text. -/
def searchFrom (re : Re) : List Char → Bool
  | [] => matchHere re [] (fun _ => true)
  | c :: cs => matchHere re (c :: cs) (fun _ => true) || searchFrom re cs

/-- A group under construction: the alternatives already closed by `|`, and the
concatenation being read. -/
structure Frame where
  alts : Option Re
  cur : Re
deriving Repr, DecidableEq

/-- The expression of a finished group. -/
def Frame.close (f : Frame) : Re :=
  match f.alts with
  | none => f.cur
  | some a => .alt a f.cur

/-- Appends one atom to the concatenation being read. -/
def Frame.push (f : Frame) (a : Re) : Frame :=
  { f with cur := .seq f.cur a }

/-- State of the pattern reader: whether a backslash was just read, the
innermost open group and the enclosing ones. -/
structure ParseState where
  esc : Bool
  top : Frame
  stack : List Frame
deriving Repr, DecidableEq

/-- Characters with a meaning that the fragment does not cover. -/
def unsupportedChar (c : Char) : Bool :=
  c == '.' || c == '+' || c == '*' || c == '?' || c == '[' || c == ']' ||
  c == '\x7b' || c == '\x7d' || c == '^'

/-- Reads one pattern character. -/
def parseStep (s : ParseState) (c : Char) : Except String ParseState :=
  if s.esc then
    if c.toNat < 128 && !c.isAlphanum then
      .ok { s with esc := false, top := s.top.push (.lit c) }
    else .error "unsupported"
  else if c = '\\' then .ok { s with esc := true }
  else if c = '(' then
    .ok { s with top := { alts := none, cur := .empty }, stack := s.top :: s.stack }
  else if c = ')' then
    match s.stack with
    | [] => .error "unexpected )"
    | f :: rest => .ok { s with top := f.push s.top.close, stack := rest }
  else if c = '|' then
    .ok { s with top := { alts := some s.top.close, cur := .empty } }
  else if c = '$' then .ok { s with top := s.top.push .eot }
  else if c.toNat < 128 && !unsupportedChar c then
    .ok { s with top := s.top.push (.lit c) }
  else .error "unsupported"

/-- Reads a pattern body from a reader state. -/
def parseFrom : List Char → ParseState → Except String Re
  | [], s =>
    if s.esc then .error "trailing backslash"
    else if !s.stack.isEmpty then .error "missing closing )"
    else .ok s.top.close
  | c :: cs, s =>
    match parseStep s c with
    | .error err => .error err
    | .ok s => parseFrom cs s

/-- The reference engine. -/
def goRegexp : Regexp Re where
  Compile := fun pattern =>
    if "(?i)".data.isPrefixOf pattern.data then
      parseFrom (pattern.data.drop 4)
        { esc := false, top := { alts := none, cur := .empty }, stack := [] }
    else .error "unsupported"
  MatchString := fun re s => searchFrom re s.data

/-- The pattern characters `t` match, up to case folding, at the head of `ys`;
`k` receives the rest of the text. -/
def litsHere : List Char → List Char → (List Char → Bool) → Bool
  | [], ys, k => k ys
  | p :: t, ys, k =>
    match ys with
    | [] => false
    | y :: ys => foldEq p y && litsHere t ys k

/-- The expression of the group `(\?|#|$)`. -/
def endGroup : Re :=
  .alt (.alt (.seq .empty (.lit '?')) (.seq .empty (.lit '#'))) (.seq .empty .eot)

/-- An engine that keeps the pattern text as the compiled expression and never
matches; it shows which text `regexp.Compile` is called with. -/
def sourceRegexp : Regexp String where
  Compile := fun pattern => .ok pattern
  MatchString := fun _ _ => false

/-! ## Reference descriptions used by the statements -/

/-- The input without the occurrences of a line that come after an earlier
occurrence of the same line; `before` holds the lines already met. -/
def dropRepeats {V : Type} (before : List String) : List (String × V) → List (String × V)
  | [] => []
  | (line, v) :: rest =>
    if before.contains line then dropRepeats before rest
    else (line, v) :: dropRepeats (line :: before) rest

/-- The input from which every occurrence of a line after its first has been
removed. -/
def firstOccurrences {V : Type} (input : List (String × V)) : List (String × V) :=
  dropRepeats [] input

/-- The lines that the scanner delivers: those before the end of the input or
before the first line that is too long. -/
def linesRead {V : Type} (input : List (String × V)) : List (String × V) :=
  input.takeWhile (fun e => !tooLong e.1)

/-- The loop body applied in turn to every line of a list. -/
def processAll {R : Type} (E : Regexp R) (fl : Flags) (excludePatterns includePatterns : List R) :
    LoopState → List (String × List (R × String)) → LoopState
  | st, [] => st
  | st, (line, visit) :: rest =>
    processAll E fl excludePatterns includePatterns
      (processLine E fl excludePatterns includePatterns st line visit) rest

/-- A line is kept by the filters: no configured exclude pattern matches it, and
some include pattern matches it when include patterns are configured. -/
def passesFilters {R : Type} (E : Regexp R) (excludePatterns includePatterns : List R)
    (line : String) : Bool :=
  !(excludePatterns.any (fun re => E.MatchString re line)) &&
  (includePatterns.isEmpty || includePatterns.any (fun re => E.MatchString re line))

/-- The test applied to a line once it is past the dedup check. -/
def keeps {R : Type} (E : Regexp R) (excludePatterns includePatterns : List R)
    (e : String × List (R × String)) : Bool :=
  passesFilters E excludePatterns includePatterns e.1 && bestCategory E e.2 e.1 != ""

/-- The input lines that survive dedup (when `-u` is set), exclude and include
and win a category, in input order. -/
def survivors {R : Type} (E : Regexp R) (fl : Flags) (excludePatterns includePatterns : List R)
    (input : List (String × List (R × String))) : List (String × List (R × String)) :=
  (if fl.flagUnique then firstOccurrences input else input).filter
    (keeps E excludePatterns includePatterns)

/-- The emission the program makes for a line that won a category. -/
def emissionOf {R : Type} (E : Regexp R) (fl : Flags) (e : String × List (R × String)) :
    Emission :=
  { line := e.1, category := bestCategory E e.2 e.1,
    text := colorize fl e.1 (colorOf (bestCategory E e.2 e.1)) }

/-- The state after the kept lines `kept` have been counted or emitted. -/
def applyKept {R : Type} (E : Regexp R) (fl : Flags) (st : LoopState)
    (kept : List (String × List (R × String))) : LoopState :=
  if fl.flagStats then
    { st with categoryStats :=
        kept.foldl (fun stats e => increment stats (bestCategory E e.2 e.1)) st.categoryStats }
  else { st with emitted := st.emitted ++ kept.map (emissionOf E fl) }

/-- The `(category, pattern)` pairs that a request `cats` selects from the
catalog, in processing order: every pattern of every catalog category for an
`"all"`, the patterns of the named category when the catalog has it, nothing
otherwise. -/
def requestedPatterns (pf : PatternFile) (cats : List String) : List (String × String) :=
  cats.flatMap (fun cat =>
    if cat = "all" then
      pf.Categories.flatMap (fun kc => kc.2.Patterns.map (fun p => (kc.1, p)))
    else
      match pf.Categories.lookup cat with
      | none => []
      | some catData => catData.Patterns.map (fun p => (cat, p)))

/-- The entry `e` is the matcher compiled from the pattern of `kp`, tagged with
the category of `kp`. -/
def EntryOf {R : Type} (E : Regexp R) (kp : String × String) (e : R × String) : Prop :=
  E.Compile ("(?i)" ++ kp.2) = .ok e.1 ∧ e.2 = kp.1

/-- The text of the error returned for the pattern of `kp` and the compile
error `err`. -/
def compileErrorText (kp : String × String) (err : String) : String :=
  "failed to compile pattern " ++ kp.2 ++ " for category " ++ kp.1 ++ ": " ++ err

/-- What one of the builder loops returns after going through the pairs `req`
from the map `result`: either `result` extended by one entry per pair, or the
error of a pair that does not compile. -/
def BuildOutcome {R : Type} (E : Regexp R) (req : List (String × String))
    (result : List (R × String)) : Except String (List (R × String)) → Prop
  | .ok r => ∃ added, r = result ++ added ∧ List.Forall₂ (EntryOf E) req added
  | .error msg => ∃ kp ∈ req, ∃ err, E.Compile ("(?i)" ++ kp.2) = .error err ∧
      msg = compileErrorText kp err

/-- The characters with a special meaning in Go's regular expressions, the set
that `regexp.QuoteMeta` escapes. -/
def isRegexMeta (c : Char) : Bool :=
  c == '\\' || c == '.' || c == '+' || c == '*' || c == '?' || c == '(' || c == ')' ||
  c == '|' || c == '[' || c == ']' || c == '\x7b' || c == '\x7d' || c == '^' || c == '$'

/-! ## Sample data -/

/-- The expression that the reference engine compiles `(?i)\.ext` to. -/
def dotExt (ext : List Char) : Re :=
  ext.foldl (fun re c => .seq re (.lit c)) (.seq .empty (.lit '.'))

/-- The expression that the reference engine compiles `(?i)\.ext(\?|#|$)` to. -/
def dotExtEnd (ext : List Char) : Re :=
  .seq (dotExt ext) endGroup

/-- A catalog with one pattern for each of the categories `s`, `b`, `p`. -/
def samplePatterns : PatternFile :=
  { Categories :=
      [("s", { Description := "SQL", Patterns := ["\\.sql"], Examples := [] }),
       ("b", { Description := "Backup", Patterns := ["\\.bak"], Examples := [] }),
       ("p", { Description := "PHP", Patterns := ["\\.php"], Examples := [] })] }

/-- The matcher set built from `samplePatterns` for the request `all`. -/
def sampleVisit : List (Re × String) :=
  [(dotExt "sql".data, "s"), (dotExt "bak".data, "b"), (dotExt "php".data, "p")]

/-- Three input lines, each with the sample matcher set in its listed order. -/
def sampleInput : List (String × List (Re × String)) :=
  [("a.sql.bak", sampleVisit), ("index.php", sampleVisit), ("b.js", sampleVisit)]

/-- A catalog with the known category `b` and a category `env` that the
priority table does not list. -/
def customPatterns : PatternFile :=
  { Categories :=
      [("b", { Description := "Backup", Patterns := ["\\.bak"], Examples := [] }),
       ("env", { Description := "Environment", Patterns := ["\\.env"], Examples := [] })] }

/-- The matcher set built from `customPatterns` for the request `all`. -/
def customVisit : List (Re × String) :=
  [(dotExt "bak".data, "b"), (dotExt "env".data, "env")]

/-- The lines `x.env`, `x.env`, `y.bak`, each with a matcher set holding `.env`
for category `c` and `.bak` for category `b`. -/
def repeatedInput : List (String × List (Re × String)) :=
  [("x.env", [(dotExt "env".data, "c"), (dotExt "bak".data, "b")]),
   ("x.env", [(dotExt "env".data, "c"), (dotExt "bak".data, "b")]),
   ("y.bak", [(dotExt "env".data, "c"), (dotExt "bak".data, "b")])]

/-- A line of 65536 letters `a`. -/
def longLine : String := ⟨List.replicate 65536 'a'⟩

/-- The lines `a.sql`, the line of 65536 letters, `index.php`, each with the
sample matcher set. -/
def longInput : List (String × List (Re × String)) :=
  [("a.sql", sampleVisit), (longLine, sampleVisit), ("index.php", sampleVisit)]

/-- Map orders that leave every map in its listed order. -/
def listedOrders : MapOrders Re :=
  { flags := id, regexMap := fun _ m => m, categoryStats := id }


/-! ## Resolver: auxiliary facts -/

theorem priorityOf_known_pos {cat : String} (h : knownCategory cat) :
    0 < priorityOf cat ∧ priorityOf cat < 9999 := by
  simp only [knownCategory, categoryPriority, List.map, List.mem_cons, List.mem_singleton,
    List.not_mem_nil, or_false] at h
  rcases h with h | h | h | h | h | h | h | h | h | h | h | h | h | h | h <;>
    subst h <;> decide

theorem priorityOf_known_inj {a b : String} (ha : knownCategory a) (hb : knownCategory b)
    (h : priorityOf a = priorityOf b) : a = b := by
  simp only [knownCategory, categoryPriority, List.map, List.mem_cons, List.mem_singleton,
    List.not_mem_nil, or_false] at ha hb
  rcases ha with ha | ha | ha | ha | ha | ha | ha | ha | ha | ha | ha | ha | ha | ha | ha <;>
    rcases hb with hb | hb | hb | hb | hb | hb | hb | hb | hb | hb | hb | hb | hb | hb | hb <;>
    subst ha <;> subst hb <;> first | rfl | (exact absurd h (by decide))

theorem knownCategory_ne_empty {cat : String} (h : knownCategory cat) : cat ≠ "" := by
  intro hc
  subst hc
  exact absurd h (by decide)

/-- What the loop has computed after visiting `l` from the loop state `b`. -/
theorem foldl_bestStep_spec {R : Type} (E : Regexp R) (line : String)
    (l : List (R × String)) (b : Best) :
    let r := l.foldl (bestStep E line) b
    r.bestPrio ≤ b.bestPrio ∧
    (∀ e ∈ l, E.MatchString e.1 line = true → r.bestPrio ≤ priorityOf e.2) ∧
    (r = b ∨ ∃ e ∈ l, E.MatchString e.1 line = true ∧
        r = { bestCat := e.2, bestPrio := priorityOf e.2 } ∧ priorityOf e.2 < b.bestPrio) := by
  induction l generalizing b with
  | nil => simp
  | cons x xs ih =>
    have hx := ih (bestStep E line b x)
    simp only [List.foldl_cons, List.mem_cons] at hx ⊢
    obtain ⟨h1, h2, h3⟩ := hx
    by_cases hm : E.MatchString x.1 line = true
    · by_cases hp : priorityOf x.2 < b.bestPrio
      · have hs : bestStep E line b x = { bestCat := x.2, bestPrio := priorityOf x.2 } := by
          simp [bestStep, hm, hp]
        rw [hs] at h1 h3 ⊢
        simp only at h1 h3
        refine ⟨by omega, ?_, ?_⟩
        · rintro e (rfl | he) hf
          · exact h1
          · rw [hs] at h2; exact h2 e he hf
        · right
          rcases h3 with h3 | ⟨e, he, hf, hr, hlt⟩
          · exact ⟨x, Or.inl rfl, hm, h3, hp⟩
          · exact ⟨e, Or.inr he, hf, hr, by omega⟩
      · have hs : bestStep E line b x = b := by simp [bestStep, hm, hp]
        rw [hs] at h1 h2 h3 ⊢
        refine ⟨h1, ?_, ?_⟩
        · rintro e (rfl | he) hf
          · omega
          · exact h2 e he hf
        · rcases h3 with h3 | ⟨e, he, hf, hr, hlt⟩
          · exact Or.inl h3
          · exact Or.inr ⟨e, Or.inr he, hf, hr, hlt⟩
    · have hs : bestStep E line b x = b := by simp [bestStep, hm]
      rw [hs] at h1 h2 h3 ⊢
      refine ⟨h1, ?_, ?_⟩
      · rintro e (rfl | he) hf
        · exact absurd hf hm
        · exact h2 e he hf
      · rcases h3 with h3 | ⟨e, he, hf, hr, hlt⟩
        · exact Or.inl h3
        · exact Or.inr ⟨e, Or.inr he, hf, hr, hlt⟩

/-- When no visited matcher fires the loop leaves its state untouched. -/
theorem foldl_bestStep_none {R : Type} (E : Regexp R) (line : String)
    (l : List (R × String)) (b : Best)
    (h : ∀ e ∈ l, E.MatchString e.1 line = false) :
    l.foldl (bestStep E line) b = b := by
  induction l generalizing b with
  | nil => rfl
  | cons x xs ih =>
    have hx : bestStep E line b x = b := by
      simp [bestStep, h x (List.mem_cons_self _ _)]
    rw [List.foldl_cons, hx]
    exact ih b (fun e he => h e (List.mem_cons_of_mem _ he))

/-- With every tag in the priority table and some matcher firing, the winner is
the tag of a firing matcher of least rank. -/
theorem bestCategory_known_fired {R : Type} (E : Regexp R) (line : String)
    (visit : List (R × String)) (hk : ∀ e ∈ visit, knownCategory e.2)
    (hf : ∃ e ∈ visit, E.MatchString e.1 line = true) :
    (∃ e ∈ visit, E.MatchString e.1 line = true ∧ e.2 = bestCategory E visit line) ∧
    (∀ e ∈ visit, E.MatchString e.1 line = true →
        priorityOf (bestCategory E visit line) ≤ priorityOf e.2) := by
  obtain ⟨e0, he0, hf0⟩ := hf
  have hspec := foldl_bestStep_spec E line visit { bestCat := "", bestPrio := 9999 }
  simp only at hspec
  obtain ⟨_, h2, h3⟩ := hspec
  have hlt := (priorityOf_known_pos (hk e0 he0)).2
  have hle := h2 e0 he0 hf0
  rcases h3 with h3 | ⟨e, he, hfe, hr, _⟩
  · rw [h3] at hle
    simp only at hle
    omega
  · have hb : bestCategory E visit line = e.2 := by
      simp only [bestCategory, bestLoop, hr]
    refine ⟨⟨e, he, hfe, hb.symm⟩, ?_⟩
    intro e' he' hfe'
    have := h2 e' he' hfe'
    rw [hr] at this
    rw [hb]
    exact this

/-! ## The per-line loop: auxiliary facts -/

theorem matchesAnyPattern_eq_any {R : Type} (E : Regexp R) (line : String) (ps : List R) :
    matchesAnyPattern E line ps = ps.any (fun re => E.MatchString re line) := by
  induction ps with
  | nil => rfl
  | cons p ps ih =>
    simp only [matchesAnyPattern, List.any_cons, ih]
    cases E.MatchString p line <;> simp

theorem classifyLine_eq {R : Type} (E : Regexp R) (fl : Flags) (exc inc : List R)
    (st : LoopState) (line : String) (visit : List (R × String)) :
    classifyLine E fl exc inc st line visit =
      if keeps E exc inc (line, visit) then applyKept E fl st [(line, visit)] else st := by
  unfold classifyLine keeps passesFilters applyKept emissionOf
  simp only [matchesAnyPattern_eq_any]
  cases hx : exc.any (fun re => E.MatchString re line) <;>
    cases hi : inc.any (fun re => E.MatchString re line) <;>
    cases exc <;> cases inc <;>
    cases hb : (bestCategory E visit line != "") <;>
    cases hs : fl.flagStats <;>
    simp_all

theorem applyKept_nil {R : Type} (E : Regexp R) (fl : Flags) (st : LoopState) :
    applyKept E fl st [] = st := by
  unfold applyKept
  cases fl.flagStats <;> simp

theorem applyKept_cons {R : Type} (E : Regexp R) (fl : Flags) (st : LoopState)
    (e : String × List (R × String)) (kept : List (String × List (R × String))) :
    applyKept E fl st (e :: kept) = applyKept E fl (applyKept E fl st [e]) kept := by
  unfold applyKept
  cases fl.flagStats <;> simp

theorem processAll_plain {R : Type} (E : Regexp R) (fl : Flags) (exc inc : List R)
    (hu : fl.flagUnique = false) (st : LoopState) (input : List (String × List (R × String))) :
    processAll E fl exc inc st input = applyKept E fl st (input.filter (keeps E exc inc)) := by
  induction input generalizing st with
  | nil => simp [processAll, applyKept_nil]
  | cons e rest ih =>
    obtain ⟨line, visit⟩ := e
    simp only [processAll, processLine, hu, Bool.false_eq_true, if_false]
    rw [ih, classifyLine_eq]
    by_cases hk : keeps E exc inc (line, visit) = true
    · rw [List.filter_cons_of_pos hk, if_pos hk]
      exact (applyKept_cons E fl st _ _).symm
    · rw [List.filter_cons_of_neg hk, if_neg hk]

theorem applyKept_emitted {R : Type} (E : Regexp R) (fl : Flags) (st st' : LoopState)
    (kept : List (String × List (R × String)))
    (he : st.emitted = st'.emitted) (hs : st.categoryStats = st'.categoryStats) :
    (applyKept E fl st kept).emitted = (applyKept E fl st' kept).emitted ∧
    (applyKept E fl st kept).categoryStats = (applyKept E fl st' kept).categoryStats ∧
    (applyKept E fl st kept).seenURLs = st.seenURLs := by
  unfold applyKept
  cases fl.flagStats <;> simp [he, hs]

theorem processAll_unique {R : Type} (E : Regexp R) (fl : Flags) (exc inc : List R)
    (hu : fl.flagUnique = true) (st : LoopState) (input : List (String × List (R × String))) :
    (processAll E fl exc inc st input).emitted =
      (applyKept E fl st ((dropRepeats st.seenURLs input).filter (keeps E exc inc))).emitted ∧
    (processAll E fl exc inc st input).categoryStats =
      (applyKept E fl st ((dropRepeats st.seenURLs input).filter (keeps E exc inc))).categoryStats := by
  induction input generalizing st with
  | nil => simp [processAll, dropRepeats, applyKept_nil]
  | cons e rest ih =>
    obtain ⟨line, visit⟩ := e
    simp only [processAll, processLine, hu, if_true, dropRepeats]
    by_cases hseen : st.seenURLs.contains line = true
    · rw [if_pos hseen, if_pos hseen]
      exact ih st
    · rw [if_neg hseen, if_neg hseen]
      have hih := ih (classifyLine E fl exc inc { st with seenURLs := line :: st.seenURLs } line visit)
      rw [classifyLine_eq] at hih ⊢
      by_cases hk : keeps E exc inc (line, visit) = true
      · rw [if_pos hk] at hih ⊢
        rw [List.filter_cons_of_pos hk, applyKept_cons E fl st (line, visit)]
        have h1 := applyKept_emitted E fl { st with seenURLs := line :: st.seenURLs } st
          [(line, visit)] rfl rfl
        obtain ⟨h1e, h1s, h1u⟩ := h1
        rw [h1u] at hih
        have h2 := applyKept_emitted E fl
          (applyKept E fl { st with seenURLs := line :: st.seenURLs } [(line, visit)])
          (applyKept E fl st [(line, visit)])
          ((dropRepeats (line :: st.seenURLs) rest).filter (keeps E exc inc)) h1e h1s
        exact ⟨hih.1.trans h2.1, hih.2.trans h2.2.1⟩
      · rw [if_neg hk] at hih ⊢
        rw [List.filter_cons_of_neg hk]
        have h2 := applyKept_emitted E fl { st with seenURLs := line :: st.seenURLs } st
          ((dropRepeats (line :: st.seenURLs) rest).filter (keeps E exc inc)) rfl rfl
        exact ⟨hih.1.trans h2.1, hih.2.trans h2.2.1⟩

theorem dropRepeats_spec {V : Type} (before : List String) (input : List (String × V)) :
    (dropRepeats before input).Sublist input ∧
    ((dropRepeats before input).map Prod.fst).Nodup ∧
    (∀ e ∈ dropRepeats before input, e.1 ∉ before) ∧
    (∀ e ∈ input, e.1 ∉ before → e.1 ∈ (dropRepeats before input).map Prod.fst) := by
  induction input generalizing before with
  | nil => simp [dropRepeats]
  | cons e rest ih =>
    obtain ⟨line, v⟩ := e
    simp only [dropRepeats]
    by_cases hb : before.contains line = true
    · rw [if_pos hb]
      obtain ⟨h1, h2, h3, h4⟩ := ih before
      refine ⟨h1.cons _, h2, h3, ?_⟩
      intro e he hnb
      rcases List.mem_cons.mp he with rfl | he
      · exact absurd (List.elem_iff.mp hb) hnb
      · exact h4 e he hnb
    · rw [if_neg hb]
      obtain ⟨h1, h2, h3, h4⟩ := ih (line :: before)
      have hnb : line ∉ before := fun h => hb (List.elem_iff.mpr h)
      refine ⟨h1.cons₂ _, ?_, ?_, ?_⟩
      · rw [List.map_cons, List.nodup_cons]
        refine ⟨?_, h2⟩
        intro hmem
        obtain ⟨e, he, hl⟩ := List.mem_map.mp hmem
        exact h3 e he (hl ▸ List.mem_cons_self _ _)
      · intro e he
        rcases List.mem_cons.mp he with rfl | he
        · exact hnb
        · exact fun h => h3 e he (List.mem_cons_of_mem _ h)
      · intro e he hn
        rw [List.map_cons, List.mem_cons]
        by_cases hl : e.1 = line
        · exact Or.inl hl
        · right
          rcases List.mem_cons.mp he with rfl | he
          · exact absurd rfl hl
          · apply h4 e he
            intro h
            rcases List.mem_cons.mp h with h | h
            · exact hl h
            · exact hn h

theorem dropRepeats_snoc {V : Type} (before : List String) (input : List (String × V))
    (e : String × V) :
    dropRepeats before (input ++ [e]) =
      if e.1 ∈ before ∨ e.1 ∈ input.map Prod.fst then dropRepeats before input
      else dropRepeats before input ++ [e] := by
  induction input generalizing before with
  | nil =>
    obtain ⟨line, v⟩ := e
    by_cases hb : line ∈ before
    · simp [dropRepeats, hb]
    · simp [dropRepeats, hb]
  | cons x xs ih =>
    obtain ⟨l, v⟩ := x
    have hL : dropRepeats before ((l, v) :: xs ++ [e]) =
        if before.contains l then dropRepeats before (xs ++ [e])
        else (l, v) :: dropRepeats (l :: before) (xs ++ [e]) := rfl
    have hR : dropRepeats before ((l, v) :: xs) =
        if before.contains l then dropRepeats before xs
        else (l, v) :: dropRepeats (l :: before) xs := rfl
    rw [hL, hR]
    by_cases hb : l ∈ before
    · have hc : before.contains l = true := List.elem_iff.mpr hb
      rw [if_pos hc, if_pos hc, ih before]
      have hiff : (e.1 ∈ before ∨ e.1 ∈ xs.map Prod.fst) ↔
          (e.1 ∈ before ∨ e.1 ∈ ((l, v) :: xs).map Prod.fst) := by
        simp only [List.map_cons, List.mem_cons]
        constructor
        · rintro (h | h)
          · exact Or.inl h
          · exact Or.inr (Or.inr h)
        · rintro (h | h | h)
          · exact Or.inl h
          · exact Or.inl (h ▸ hb)
          · exact Or.inr h
      by_cases hq : e.1 ∈ before ∨ e.1 ∈ ((l, v) :: xs).map Prod.fst
      · rw [if_pos (hiff.mpr hq), if_pos hq]
      · rw [if_neg (fun h => hq (hiff.mp h)), if_neg hq]
    · have hc : ¬ (before.contains l = true) := fun h => hb (List.elem_iff.mp h)
      rw [if_neg hc, if_neg hc, ih (l :: before)]
      have hiff : (e.1 ∈ l :: before ∨ e.1 ∈ xs.map Prod.fst) ↔
          (e.1 ∈ before ∨ e.1 ∈ ((l, v) :: xs).map Prod.fst) := by
        simp only [List.map_cons, List.mem_cons]
        constructor
        · rintro ((h | h) | h)
          · exact Or.inr (Or.inl h)
          · exact Or.inl h
          · exact Or.inr (Or.inr h)
        · rintro (h | h | h)
          · exact Or.inl (Or.inr h)
          · exact Or.inl (Or.inl h)
          · exact Or.inr h
      by_cases hq : e.1 ∈ before ∨ e.1 ∈ ((l, v) :: xs).map Prod.fst
      · rw [if_pos (hiff.mpr hq), if_pos hq]
      · rw [if_neg (fun h => hq (hiff.mp h)), if_neg hq]
        rfl

theorem totalMatches_eq_sum (l : List (String × Nat)) :
    totalMatches l = (l.map Prod.snd).sum := by
  have h : ∀ (l : List (String × Nat)) (a : Nat),
      l.foldl (fun total e => total + e.2) a = a + (l.map Prod.snd).sum := by
    intro l
    induction l with
    | nil => intro a; simp
    | cons x xs ih => intro a; simp [ih, Nat.add_assoc]
  simpa [totalMatches] using h l 0

theorem increment_sum (stats : List (String × Nat)) (cat : String) :
    ((increment stats cat).map Prod.snd).sum = (stats.map Prod.snd).sum + 1 := by
  induction stats with
  | nil => simp [increment]
  | cons x xs ih =>
    obtain ⟨k, n⟩ := x
    by_cases hk : k = cat
    · simp [increment, hk]; omega
    · simp [increment, hk, ih]; omega

theorem foldl_increment_sum {α : Type} (f : α → String) (kept : List α)
    (stats : List (String × Nat)) :
    ((kept.foldl (fun st e => increment st (f e)) stats).map Prod.snd).sum =
      (stats.map Prod.snd).sum + kept.length := by
  induction kept generalizing stats with
  | nil => simp
  | cons x xs ih =>
    rw [List.foldl_cons, ih, increment_sum, List.length_cons]
    omega

theorem not_keeps_of_excluded {R : Type} (E : Regexp R) (exc inc : List R) (line : String)
    (visit : List (R × String)) (hx : ∃ re ∈ exc, E.MatchString re line = true) :
    keeps E exc inc (line, visit) = false := by
  have h : exc.any (fun re => E.MatchString re line) = true := List.any_eq_true.mpr hx
  simp [keeps, passesFilters, h]

/-- The emissions and the counters at the end of a run are those obtained from
the surviving lines alone. -/
theorem processAll_survivors {R : Type} (E : Regexp R) (fl : Flags) (exc inc : List R)
    (input : List (String × List (R × String))) :
    (processAll E fl exc inc {} input).emitted =
      (applyKept E fl {} (survivors E fl exc inc input)).emitted ∧
    (processAll E fl exc inc {} input).categoryStats =
      (applyKept E fl {} (survivors E fl exc inc input)).categoryStats := by
  by_cases hu : fl.flagUnique = true
  · have h := processAll_unique E fl exc inc hu {} input
    simpa [survivors, hu, firstOccurrences] using h
  · have hu' : fl.flagUnique = false := by simpa using hu
    rw [processAll_plain E fl exc inc hu' {} input]
    simp [survivors, hu']

theorem survivors_sublist {R : Type} (E : Regexp R) (fl : Flags) (exc inc : List R)
    (input : List (String × List (R × String))) :
    (survivors E fl exc inc input).Sublist input := by
  unfold survivors
  by_cases hu : fl.flagUnique = true
  · rw [if_pos hu]
    exact (List.filter_sublist _).trans (dropRepeats_spec ([] : List String) input).1
  · rw [if_neg hu]
    exact List.filter_sublist _

/-! ## The scanner limit -/

theorem scanLoop_eq_processAll {R : Type} (E : Regexp R) (fl : Flags) (exc inc : List R)
    (st : LoopState) (input : List (String × List (R × String))) :
    scanLoop E fl exc inc st input = processAll E fl exc inc st (linesRead input) := by
  induction input generalizing st with
  | nil => rfl
  | cons e rest ih =>
    obtain ⟨line, visit⟩ := e
    by_cases hl : tooLong line = true
    · simp [scanLoop, linesRead, hl, processAll]
    · have hf : tooLong line = false := by simpa using hl
      have hr : linesRead ((line, visit) :: rest) = (line, visit) :: linesRead rest := by
        simp [linesRead, hf]
      rw [hr]
      simp only [scanLoop, hf, Bool.false_eq_true, if_false, processAll]
      exact ih _

theorem linesRead_sublist {V : Type} (input : List (String × V)) :
    (linesRead input).Sublist input :=
  List.takeWhile_sublist _

/-- Dropping repeated lines and cutting at the first over-long line commute,
when no line met so far is too long. -/
theorem dropRepeats_linesRead {V : Type} (before : List String) (input : List (String × V))
    (hb : ∀ b ∈ before, tooLong b = false) :
    dropRepeats before (linesRead input) = linesRead (dropRepeats before input) := by
  induction input generalizing before with
  | nil => rfl
  | cons e rest ih =>
    obtain ⟨line, v⟩ := e
    by_cases hl : tooLong line = true
    · have hnb : ¬ (before.contains line = true) := by
        intro hc
        have := hb line (List.elem_iff.mp hc)
        rw [this] at hl
        cases hl
      have h1 : linesRead ((line, v) :: rest) = [] := by simp [linesRead, hl]
      have h2 : dropRepeats before ((line, v) :: rest) =
          (line, v) :: dropRepeats (line :: before) rest := by
        simp only [dropRepeats, if_neg hnb]
      rw [h1, h2]
      simp [linesRead, hl, dropRepeats]
    · have hf : tooLong line = false := by simpa using hl
      have h1 : linesRead ((line, v) :: rest) = (line, v) :: linesRead rest := by
        simp [linesRead, hf]
      rw [h1]
      by_cases hc : before.contains line = true
      · simp only [dropRepeats, if_pos hc]
        exact ih before hb
      · simp only [dropRepeats, if_neg hc]
        have h3 : linesRead ((line, v) :: dropRepeats (line :: before) rest) =
            (line, v) :: linesRead (dropRepeats (line :: before) rest) := by
          simp [linesRead, hf]
        rw [h3, ih (line :: before)]
        intro b hbm
        rcases List.mem_cons.mp hbm with rfl | hbm
        · exact hf
        · exact hb b hbm

theorem firstOccurrences_linesRead {V : Type} (input : List (String × V)) :
    firstOccurrences (linesRead input) = linesRead (firstOccurrences input) :=
  dropRepeats_linesRead [] input (fun _ h => absurd h (List.not_mem_nil _))

theorem firstOccurrences_length {V : Type} (input : List (String × V)) :
    (firstOccurrences input).length = ((input.map Prod.fst).dedup).length := by
  have hspec : (firstOccurrences input).Sublist input ∧
      ((firstOccurrences input).map Prod.fst).Nodup ∧
      (∀ e ∈ firstOccurrences input, e.1 ∉ ([] : List String)) ∧
      (∀ e ∈ input, e.1 ∉ ([] : List String) → e.1 ∈ (firstOccurrences input).map Prod.fst) :=
    dropRepeats_spec ([] : List String) input
  obtain ⟨hsub, hnd, _, hall⟩ := hspec
  have hp : ((firstOccurrences input).map Prod.fst).Perm ((input.map Prod.fst).dedup) := by
    refine (List.perm_ext_iff_of_nodup hnd (List.nodup_dedup _)).mpr ?_
    intro a
    rw [List.mem_dedup]
    constructor
    · intro ha
      exact (hsub.map Prod.fst).subset ha
    · intro ha
      obtain ⟨e, he, rfl⟩ := List.mem_map.mp ha
      exact hall e he (List.not_mem_nil _)
  simpa using hp.length_eq

/-- The run with `-u` over a list of lines, all read, against the run without
`-u` over the first occurrences. -/
theorem processAll_dedup {R : Type} (E : Regexp R) (fl : Flags) (exc inc : List R)
    (input : List (String × List (R × String))) :
    (processAll E { fl with flagUnique := true } exc inc {} input).emitted =
      (processAll E { fl with flagUnique := false } exc inc {} (firstOccurrences input)).emitted ∧
    (processAll E { fl with flagUnique := true } exc inc {} input).categoryStats =
      (processAll E { fl with flagUnique := false } exc inc {}
        (firstOccurrences input)).categoryStats ∧
    ((processAll E { fl with flagUnique := true } exc inc {} input).emitted.map
      Emission.line).Nodup ∧
    (processAll E { fl with flagUnique := true } exc inc {} input).emitted.length +
        totalMatches (processAll E { fl with flagUnique := true } exc inc {} input).categoryStats ≤
      (firstOccurrences input).length := by
  have hon := processAll_unique E { fl with flagUnique := true } exc inc rfl {} input
  have hoff := processAll_plain E { fl with flagUnique := false } exc inc rfl {}
    (firstOccurrences input)
  have hnd : ((firstOccurrences input).map Prod.fst).Nodup :=
    (dropRepeats_spec ([] : List String) input).2.1
  have hkeptnd : (((firstOccurrences input).filter (keeps E exc inc)).map Prod.fst).Nodup :=
    (hnd.sublist ((List.filter_sublist _).map Prod.fst))
  have hem : (processAll E { fl with flagUnique := true } exc inc {} input).emitted =
      (applyKept E fl {} ((firstOccurrences input).filter (keeps E exc inc))).emitted := hon.1
  have hst : (processAll E { fl with flagUnique := true } exc inc {} input).categoryStats =
      (applyKept E fl {} ((firstOccurrences input).filter (keeps E exc inc))).categoryStats :=
    hon.2
  refine ⟨?_, ?_, ?_, ?_⟩
  · rw [hem, hoff]; rfl
  · rw [hst, hoff]; rfl
  · rw [hem]
    unfold applyKept
    cases fl.flagStats
    · simpa [emissionOf, Function.comp_def] using hkeptnd
    · simp
  · rw [hem, hst, totalMatches_eq_sum]
    have hf : ((firstOccurrences input).filter (keeps E exc inc)).length ≤
        (firstOccurrences input).length := List.length_filter_le _ _
    unfold applyKept
    cases fl.flagStats
    · simpa using hf
    · simpa [foldl_increment_sum] using hf

theorem utf8ByteSize_replicate_a (n : Nat) :
    String.utf8ByteSize.go (List.replicate n 'a') = n := by
  induction n with
  | zero => rfl
  | succ k ih =>
    rw [List.replicate_succ]
    simp only [String.utf8ByteSize.go, ih]
    rfl

theorem longLine_tooLong : tooLong longLine = true := by
  have h : longLine.utf8ByteSize = 65536 := utf8ByteSize_replicate_a 65536
  unfold tooLong
  rw [h]
  decide

/-- On `longInput` the loop handles `a.sql` and ends at the long line. -/
theorem scanLoop_longInput (fl : Flags) (exc inc : List Re) :
    scanLoop goRegexp fl exc inc {} longInput =
      processLine goRegexp fl exc inc {} "a.sql" sampleVisit := by
  have h1 : tooLong "a.sql" = false := by decide
  simp only [longInput, scanLoop, h1, longLine_tooLong, Bool.false_eq_true, if_false, if_true]

theorem linesRead_of_all_short {V : Type} (input : List (String × V))
    (h : ∀ e ∈ input, tooLong e.1 = false) : linesRead input = input := by
  unfold linesRead
  rw [List.takeWhile_eq_self_iff]
  intro e he
  simp [h e he]

theorem scannerErr_longInput :
    scannerErr longInput = some "bufio.Scanner: token too long" := by
  have h : longInput.any (fun e => tooLong e.1) = true := by
    simp [longInput, longLine_tooLong]
  simp [scannerErr, h]

/-- The result of `main` for a run that reaches the scanning loop and ends with
a scanner error. -/
theorem mainWith_scanner_error {R : Type} (E : Regexp R) (orders : MapOrders R) (fl : Flags)
    (pf : PatternFile) (cats : List String) (created : Except String Unit) (input : List String)
    (regexMap : List (R × String)) (exc inc : List R)
    (hl : fl.flagList = false) (hb : buildCategoryRegexMap E pf cats = .ok regexMap)
    (hne : regexMap.length ≠ 0) (hx : parseFilterPatterns E fl.flagExclude = .ok exc)
    (hi : parseFilterPatterns E fl.flagInclude = .ok inc)
    (hc : (if fl.flagOutputFile != "" then created else .ok ()) = .ok ())
    (st : LoopState)
    (hst : scanLoop E fl exc inc {} (attachOrders orders.regexMap regexMap 0 input) = st)
    (err : String)
    (herr : scannerErr (attachOrders orders.regexMap regexMap 0 input) = some err) :
    mainWith E orders fl pf cats created input =
      .finished st
        (st.emitted.map Emission.text ++
          (if fl.flagStats then statsReport fl pf (orders.categoryStats st.categoryStats) else []))
        ("Error reading input: " ++ err ++ "\n") := by
  unfold mainWith
  rw [if_neg (by simp [hl]), hb]
  simp only [if_neg hne, hx, hi, hc, hst, herr]

/-! ## The matcher builder: auxiliary facts -/

theorem buildOutcome_append {R : Type} (E : Regexp R) (req₁ req₂ : List (String × String))
    (result r₁ : List (R × String)) (out : Except String (List (R × String)))
    (h₁ : BuildOutcome E req₁ result (.ok r₁)) (h₂ : BuildOutcome E req₂ r₁ out) :
    BuildOutcome E (req₁ ++ req₂) result out := by
  obtain ⟨a₁, rfl, hf₁⟩ := h₁
  cases out with
  | ok r =>
    obtain ⟨a₂, rfl, hf₂⟩ := h₂
    exact ⟨a₁ ++ a₂, by simp, List.rel_append hf₁ hf₂⟩
  | error msg =>
    obtain ⟨kp, hkp, err, he, hm⟩ := h₂
    exact ⟨kp, List.mem_append_right _ hkp, err, he, hm⟩

theorem buildOutcome_error_left {R : Type} (E : Regexp R) (req₁ req₂ : List (String × String))
    (result : List (R × String)) (msg : String)
    (h₁ : BuildOutcome E req₁ result (.error msg)) :
    BuildOutcome E (req₁ ++ req₂) result (.error msg) := by
  obtain ⟨kp, hkp, err, he, hm⟩ := h₁
  exact ⟨kp, List.mem_append_left _ hkp, err, he, hm⟩

theorem compilePatterns_outcome {R : Type} (E : Regexp R) (k : String) (ps : List String)
    (result : List (R × String)) :
    BuildOutcome E (ps.map (fun p => (k, p))) result (compilePatterns E k ps result) := by
  induction ps generalizing result with
  | nil => exact ⟨[], by simp, List.Forall₂.nil⟩
  | cons p ps ih =>
    simp only [compilePatterns]
    cases hc : E.Compile ("(?i)" ++ p) with
    | error err =>
      exact ⟨(k, p), by simp, err, hc, rfl⟩
    | ok re =>
      have h₁ : BuildOutcome E [(k, p)] result (.ok (result ++ [(re, k)])) :=
        ⟨[(re, k)], rfl, List.Forall₂.cons ⟨hc, rfl⟩ List.Forall₂.nil⟩
      exact buildOutcome_append E [(k, p)] _ result _ _ h₁ (ih (result ++ [(re, k)]))

theorem compileAll_outcome {R : Type} (E : Regexp R) (cs : List (String × Category))
    (result : List (R × String)) :
    BuildOutcome E (cs.flatMap (fun kc => kc.2.Patterns.map (fun p => (kc.1, p)))) result
      (compileAll E cs result) := by
  induction cs generalizing result with
  | nil => exact ⟨[], by simp, List.Forall₂.nil⟩
  | cons kc cs ih =>
    obtain ⟨k, catData⟩ := kc
    simp only [compileAll, List.flatMap_cons]
    have h := compilePatterns_outcome E k catData.Patterns result
    cases hc : compilePatterns E k catData.Patterns result with
    | error msg =>
      rw [hc] at h
      exact buildOutcome_error_left E _ _ result msg h
    | ok r =>
      rw [hc] at h
      exact buildOutcome_append E _ _ result r _ h (ih r)

theorem buildLoop_outcome {R : Type} (E : Regexp R) (pf : PatternFile) (cats : List String)
    (result : List (R × String)) :
    BuildOutcome E (requestedPatterns pf cats) result (buildLoop E pf cats result) := by
  induction cats generalizing result with
  | nil => exact ⟨[], by simp, List.Forall₂.nil⟩
  | cons cat cats ih =>
    simp only [buildLoop, requestedPatterns, List.flatMap_cons]
    by_cases hall : cat = "all"
    · simp only [hall, if_true]
      have h := compileAll_outcome E pf.Categories result
      cases hc : compileAll E pf.Categories result with
      | error msg =>
        rw [hc] at h
        exact buildOutcome_error_left E _ _ result msg h
      | ok r =>
        rw [hc] at h
        exact buildOutcome_append E _ _ result r _ h (ih r)
    · simp only [hall, if_false]
      cases hl : pf.Categories.lookup cat with
      | none => simpa using ih result
      | some catData =>
        simp only
        have h := compilePatterns_outcome E cat catData.Patterns result
        cases hc : compilePatterns E cat catData.Patterns result with
        | error msg =>
          rw [hc] at h
          exact buildOutcome_error_left E _ _ result msg h
        | ok r =>
          rw [hc] at h
          exact buildOutcome_append E _ _ result r _ h (ih r)

theorem forall₂_exists_right {α β : Type} {P : α → β → Prop} {l₁ : List α} {l₂ : List β}
    (h : List.Forall₂ P l₁ l₂) {a : α} (ha : a ∈ l₁) : ∃ b, b ∈ l₂ ∧ P a b := by
  induction h with
  | nil => cases ha
  | cons hab _ ih =>
    rcases List.mem_cons.mp ha with rfl | ha
    · exact ⟨_, List.mem_cons_self _ _, hab⟩
    · obtain ⟨b, hb, hp⟩ := ih ha
      exact ⟨b, List.mem_cons_of_mem _ hb, hp⟩

theorem lookup_absent {β : Type} (l : List (String × β)) (k : String)
    (h : k ∉ l.map Prod.fst) : l.lookup k = none := by
  induction l with
  | nil => rfl
  | cons x xs ih =>
    obtain ⟨a, b⟩ := x
    simp only [List.map_cons, List.mem_cons, not_or] at h
    have hne : (k == a) = false := by simpa using h.1
    simp only [List.lookup, hne]
    exact ih h.2

/-! ## Filter tokens: auxiliary facts -/

theorem trimLeft_mem_of_not_space (l : List Char) (c : Char) (hc : isSpace c = false)
    (h : c ∈ l) : c ∈ trimLeft l := by
  induction l with
  | nil => cases h
  | cons x xs ih =>
    simp only [trimLeft]
    by_cases hx : isSpace x = true
    · rw [if_pos hx]
      rcases List.mem_cons.mp h with rfl | h
      · rw [hc] at hx; cases hx
      · exact ih h
    · rw [if_neg hx]
      exact h

theorem contains_trimSpace (s : String) (c : Char) (hc : isSpace c = false)
    (h : Contains s c = true) : Contains (TrimSpace s) c = true := by
  unfold Contains at h ⊢
  have hm : c ∈ s.data := List.elem_iff.mp h
  apply List.elem_iff.mpr
  show c ∈ ((trimLeft (trimLeft s.data).reverse).reverse)
  rw [List.mem_reverse]
  apply trimLeft_mem_of_not_space _ _ hc
  rw [List.mem_reverse]
  exact trimLeft_mem_of_not_space _ _ hc hm

theorem ne_empty_of_contains (s : String) (c : Char) (h : Contains s c = true) : s ≠ "" := by
  rintro rfl
  simp [Contains] at h

/-! ## Letters and digits -/

theorem alnum_range (c : Char) (h : c.isAlphanum = true) :
    (48 ≤ c.toNat ∧ c.toNat ≤ 57) ∨ (65 ≤ c.toNat ∧ c.toNat ≤ 90) ∨
      (97 ≤ c.toNat ∧ c.toNat ≤ 122) := by
  simp only [Char.isAlphanum, Char.isAlpha, Char.isUpper, Char.isLower, Char.isDigit,
    Bool.or_eq_true, Bool.and_eq_true, decide_eq_true_eq] at h
  have e : ∀ (a : UInt32) (n : Nat), n < 4294967296 → (a ≥ UInt32.ofNat n ↔ n ≤ a.toNat) := by
    intro a n hn
    show (UInt32.ofNat n).toNat ≤ a.toNat ↔ _
    rw [UInt32.toNat_ofNat_of_lt hn]
  have e' : ∀ (a : UInt32) (n : Nat), n < 4294967296 → (a ≤ UInt32.ofNat n ↔ a.toNat ≤ n) := by
    intro a n hn
    show a.toNat ≤ (UInt32.ofNat n).toNat ↔ _
    rw [UInt32.toNat_ofNat_of_lt hn]
  unfold Char.toNat
  rcases h with (h | h) | h
  · right; left
    exact ⟨(e c.val 65 (by decide)).mp h.1, (e' c.val 90 (by decide)).mp h.2⟩
  · right; right
    exact ⟨(e c.val 97 (by decide)).mp h.1, (e' c.val 122 (by decide)).mp h.2⟩
  · left
    exact ⟨(e c.val 48 (by decide)).mp h.1, (e' c.val 57 (by decide)).mp h.2⟩

theorem alnum_ne (c d : Char) (hc : c.isAlphanum = true) (hd : d.isAlphanum = false) :
    c ≠ d := by
  rintro rfl
  rw [hc] at hd
  cases hd

theorem alnum_beq (c d : Char) (hc : c.isAlphanum = true) (hd : d.isAlphanum = false) :
    (c == d) = false := by
  simpa using alnum_ne c d hc hd

theorem alnum_not_space (c : Char) (hc : c.isAlphanum = true) : isSpace c = false := by
  have hr := alnum_range c hc
  have hlt : ¬ (0x2000 ≤ c.toNat) := by omega
  unfold isSpace
  rw [alnum_beq c '\t' hc (by decide), alnum_beq c '\n' hc (by decide),
    alnum_beq c '\x0b' hc (by decide), alnum_beq c '\x0c' hc (by decide),
    alnum_beq c '\r' hc (by decide), alnum_beq c ' ' hc (by decide),
    alnum_beq c '\u0085' hc (by decide), alnum_beq c '\u00a0' hc (by decide),
    alnum_beq c '\u1680' hc (by decide), alnum_beq c '\u2028' hc (by decide),
    alnum_beq c '\u2029' hc (by decide), alnum_beq c '\u202f' hc (by decide),
    alnum_beq c '\u205f' hc (by decide), alnum_beq c '\u3000' hc (by decide)]
  simp [hlt]

theorem alnum_supported (c : Char) (hc : c.isAlphanum = true) :
    unsupportedChar c = false := by
  unfold unsupportedChar
  rw [alnum_beq c '.' hc (by decide), alnum_beq c '+' hc (by decide),
    alnum_beq c '*' hc (by decide), alnum_beq c '?' hc (by decide),
    alnum_beq c '[' hc (by decide), alnum_beq c ']' hc (by decide),
    alnum_beq c '\x7b' hc (by decide), alnum_beq c '\x7d' hc (by decide),
    alnum_beq c '^' hc (by decide)]
  rfl

/-! ## Trimming and splitting -/

theorem trimLeft_spaces_append (ws l : List Char) (h : ∀ c ∈ ws, isSpace c = true) :
    trimLeft (ws ++ l) = trimLeft l := by
  induction ws with
  | nil => rfl
  | cons w ws ih =>
    simp only [List.cons_append, trimLeft, h w (List.mem_cons_self _ _), if_true]
    exact ih (fun c hc => h c (List.mem_cons_of_mem _ hc))

theorem trimLeft_of_head (c : Char) (l : List Char) (h : isSpace c = false) :
    trimLeft (c :: l) = c :: l := by
  simp [trimLeft, h]

/-- Trimming removes the white space around a non-empty core without white
space. -/
theorem trimSpace_core (ws₁ core ws₂ : List Char) (h₁ : ∀ c ∈ ws₁, isSpace c = true)
    (h₂ : ∀ c ∈ ws₂, isSpace c = true) (hne : core ≠ [])
    (hc : ∀ c ∈ core, isSpace c = false) :
    TrimSpace ⟨ws₁ ++ core ++ ws₂⟩ = ⟨core⟩ := by
  have hfront : trimLeft (ws₁ ++ core ++ ws₂) = core ++ ws₂ := by
    rw [List.append_assoc, trimLeft_spaces_append ws₁ _ h₁]
    cases core with
    | nil => exact absurd rfl hne
    | cons a as => exact trimLeft_of_head a _ (hc a (List.mem_cons_self _ _))
  have hback : trimLeft (core ++ ws₂).reverse = core.reverse := by
    rw [List.reverse_append,
      trimLeft_spaces_append ws₂.reverse _ (fun c hc' => h₂ c (List.mem_reverse.mp hc'))]
    cases hr : core.reverse with
    | nil => exact absurd (List.reverse_eq_nil_iff.mp hr) hne
    | cons a as =>
      have ha : a ∈ core := by
        rw [← List.mem_reverse, hr]
        exact List.mem_cons_self _ _
      exact trimLeft_of_head a _ (hc a ha)
  show String.mk ((trimLeft (trimLeft (ws₁ ++ core ++ ws₂)).reverse).reverse) = ⟨core⟩
  rw [hfront, hback, List.reverse_reverse]

theorem splitChars_of_not_mem (sep : Char) (l : List Char) (h : sep ∉ l) :
    splitChars sep l = [l] := by
  induction l with
  | nil => rfl
  | cons c cs ih =>
    have hc : c ≠ sep := fun hc => h (hc ▸ List.mem_cons_self _ _)
    have hcs : sep ∉ cs := fun hm => h (List.mem_cons_of_mem _ hm)
    simp only [splitChars, if_neg hc, ih hcs]

theorem contains_eq_false (l : List Char) (c : Char) (h : c ∉ l) :
    Contains ⟨l⟩ c = false := by
  unfold Contains
  cases hb : l.contains c with
  | false => rfl
  | true => exact absurd (List.elem_iff.mp hb) h

/-! ## The reference engine on extension patterns -/

theorem parseStep_alnum (c : Char) (hc : c.isAlphanum = true) (top : Frame)
    (stack : List Frame) :
    parseStep { esc := false, top := top, stack := stack } c =
      .ok { esc := false, top := top.push (.lit c), stack := stack } := by
  have hr := alnum_range c hc
  have h128 : c.toNat < 128 := by omega
  unfold parseStep
  simp only [Bool.false_eq_true, if_false,
    if_neg (alnum_ne c '\\' hc (by decide)), if_neg (alnum_ne c '(' hc (by decide)),
    if_neg (alnum_ne c ')' hc (by decide)), if_neg (alnum_ne c '|' hc (by decide)),
    if_neg (alnum_ne c '$' hc (by decide)), alnum_supported c hc]
  simp [h128]

theorem parseFrom_alnum (t rest : List Char) (ht : ∀ c ∈ t, c.isAlphanum = true)
    (alts : Option Re) (cur : Re) (stack : List Frame) :
    parseFrom (t ++ rest) { esc := false, top := { alts := alts, cur := cur }, stack := stack } =
      parseFrom rest
        { esc := false, top := { alts := alts, cur := t.foldl (fun re c => .seq re (.lit c)) cur },
          stack := stack } := by
  induction t generalizing cur with
  | nil => rfl
  | cons c cs ih =>
    simp only [List.cons_append, parseFrom,
      parseStep_alnum c (ht c (List.mem_cons_self _ _)), List.foldl_cons]
    exact ih (fun d hd => ht d (List.mem_cons_of_mem _ hd)) _

theorem parseFrom_endGroup (cur : Re) :
    parseFrom "(\\?|#|$)".data
        { esc := false, top := { alts := none, cur := cur }, stack := [] } =
      .ok (.seq cur endGroup) := by
  rfl

theorem compile_extension (t : List Char) (ht : ∀ c ∈ t, c.isAlphanum = true) :
    goRegexp.Compile ("(?i)" ++ ("\\." ++ String.mk t ++ "(\\?|#|$)")) = .ok (dotExtEnd t) := by
  have hd : ("(?i)" ++ ("\\." ++ String.mk t ++ "(\\?|#|$)")).data =
      '(' :: '?' :: 'i' :: ')' :: '\\' :: '.' :: (t ++ "(\\?|#|$)".data) := by
    simp [String.data_append]
  show (if "(?i)".data.isPrefixOf ("(?i)" ++ ("\\." ++ String.mk t ++ "(\\?|#|$)")).data then
      parseFrom (("(?i)" ++ ("\\." ++ String.mk t ++ "(\\?|#|$)")).data.drop 4)
        { esc := false, top := { alts := none, cur := .empty }, stack := [] }
    else .error "unsupported") = _
  rw [hd]
  have hp : "(?i)".data.isPrefixOf
      ('(' :: '?' :: 'i' :: ')' :: '\\' :: '.' :: (t ++ "(\\?|#|$)".data)) = true := by
    simp [List.isPrefixOf]
  rw [if_pos hp]
  show parseFrom ('\\' :: '.' :: (t ++ "(\\?|#|$)".data)) _ = _
  have h2 : parseFrom ('\\' :: '.' :: (t ++ "(\\?|#|$)".data))
      { esc := false, top := { alts := none, cur := .empty }, stack := [] } =
      parseFrom (t ++ "(\\?|#|$)".data)
        { esc := false, top := { alts := none, cur := .seq .empty (.lit '.') }, stack := [] } := by
    rfl
  rw [h2, parseFrom_alnum t _ ht, parseFrom_endGroup]
  rfl

theorem matchHere_foldl (t : List Char) (re : Re) (xs : List Char) (k : List Char → Bool) :
    matchHere (t.foldl (fun re c => .seq re (.lit c)) re) xs k =
      matchHere re xs (fun ys => litsHere t ys k) := by
  induction t generalizing re with
  | nil => rfl
  | cons c cs ih =>
    rw [List.foldl_cons, ih]
    rfl

theorem litsHere_iff (t ys : List Char) (k : List Char → Bool) :
    litsHere t ys k = true ↔
      ∃ u post, ys = u ++ post ∧ List.Forall₂ (fun p c => foldEq p c = true) t u ∧
        k post = true := by
  induction t generalizing ys with
  | nil =>
    constructor
    · intro h
      exact ⟨[], ys, rfl, List.Forall₂.nil, h⟩
    · rintro ⟨u, post, rfl, hf, hk⟩
      cases hf
      exact hk
  | cons p t ih =>
    cases ys with
    | nil =>
      constructor
      · intro h
        cases h
      · rintro ⟨u, post, hu, hf, _⟩
        cases hf with
        | cons _ _ => cases hu
    | cons y ys =>
      simp only [litsHere, Bool.and_eq_true, ih]
      constructor
      · rintro ⟨hy, u, post, rfl, hf, hk⟩
        exact ⟨y :: u, post, rfl, List.Forall₂.cons hy hf, hk⟩
      · rintro ⟨u, post, hu, hf, hk⟩
        cases hf with
        | cons hy hf =>
          rw [List.cons_append, List.cons.injEq] at hu
          obtain ⟨rfl, rfl⟩ := hu
          exact ⟨hy, _, post, rfl, hf, hk⟩

theorem searchFrom_iff (re : Re) (l : List Char) :
    searchFrom re l = true ↔
      ∃ pre suf, l = pre ++ suf ∧ matchHere re suf (fun _ => true) = true := by
  induction l with
  | nil =>
    constructor
    · intro h
      exact ⟨[], [], rfl, h⟩
    · rintro ⟨pre, suf, h, hm⟩
      obtain ⟨rfl, rfl⟩ := List.append_eq_nil.mp h.symm
      exact hm
  | cons c cs ih =>
    simp only [searchFrom, Bool.or_eq_true, ih]
    constructor
    · rintro (h | ⟨pre, suf, rfl, hm⟩)
      · exact ⟨[], c :: cs, rfl, h⟩
      · exact ⟨c :: pre, suf, rfl, hm⟩
    · rintro ⟨pre, suf, h, hm⟩
      cases pre with
      | nil =>
        left
        rw [List.nil_append] at h
        rw [h]
        exact hm
      | cons a pre =>
        right
        rw [List.cons_append, List.cons.injEq] at h
        exact ⟨pre, suf, h.2, hm⟩

theorem toLower_eq_of_not_letter (p c : Char) (hp : p.toNat < 97 ∨ 122 < p.toNat)
    (h : c.toLower = p) : c = p := by
  by_cases hU : 65 ≤ c.toNat ∧ c.toNat ≤ 90
  · exfalso
    rw [← Char.ofNat_toNat c] at h
    obtain ⟨h₁, h₂⟩ := hU
    generalize c.toNat = n at h h₁ h₂
    subst h
    interval_cases n <;> exact absurd hp (by decide)
  · have hc : c.toLower = c := by
      unfold Char.toLower
      simp only
      rw [if_neg hU]
    rw [hc] at h
    exact h

/-- A pattern character below `A` (such as `.`, `?`, `#`) matches itself only. -/
theorem foldEq_punct (p c : Char) (hp : p.toNat < 65) : foldEq p c = true ↔ c = p := by
  have hl : p.toLower = p := by
    unfold Char.toLower
    simp only
    rw [if_neg (by omega)]
  have hk : (p == 'k') = false := by
    have : p ≠ 'k' := by
      rintro rfl
      exact absurd hp (by decide)
    simpa using this
  have hs : (p == 's') = false := by
    have : p ≠ 's' := by
      rintro rfl
      exact absurd hp (by decide)
    simpa using this
  unfold foldEq
  rw [hl, hk, hs]
  simp only [Bool.false_and, Bool.or_false, beq_iff_eq]
  constructor
  · intro h
    exact toLower_eq_of_not_letter p c (Or.inl (by omega)) h.symm
  · rintro rfl
    exact hl.symm

theorem matchHere_endGroup (ys : List Char) :
    matchHere endGroup ys (fun _ => true) = true ↔
      ys = [] ∨ ys.head? = some '?' ∨ ys.head? = some '#' := by
  cases ys with
  | nil => simp [endGroup, matchHere]
  | cons y ys =>
    have hq := foldEq_punct '?' y (by decide)
    have hh := foldEq_punct '#' y (by decide)
    simp only [endGroup, matchHere, List.isEmpty_cons, Bool.false_and, Bool.or_false,
      Bool.and_true, Bool.or_eq_true, hq, hh, List.head?_cons, Option.some.injEq]
    simp

/-- What the expression compiled for an extension shorthand matches. -/
theorem search_dotExtEnd (t line : List Char) :
    searchFrom (dotExtEnd t) line = true ↔
      ∃ pre u post, line = pre ++ '.' :: (u ++ post) ∧
        List.Forall₂ (fun p c => foldEq p c = true) t u ∧
        (post = [] ∨ post.head? = some '?' ∨ post.head? = some '#') := by
  rw [searchFrom_iff]
  have hm : ∀ suf : List Char, matchHere (dotExtEnd t) suf (fun _ => true) = true ↔
      ∃ u post, suf = '.' :: (u ++ post) ∧
        List.Forall₂ (fun p c => foldEq p c = true) t u ∧
        (post = [] ∨ post.head? = some '?' ∨ post.head? = some '#') := by
    intro suf
    have h1 : matchHere (dotExtEnd t) suf (fun _ => true) =
        matchHere (.lit '.') suf
          (fun ys => litsHere t ys (fun zs => matchHere endGroup zs (fun _ => true))) := by
      show matchHere (dotExt t) suf (fun ys => matchHere endGroup ys (fun _ => true)) = _
      unfold dotExt
      rw [matchHere_foldl]
      rfl
    rw [h1]
    cases suf with
    | nil =>
      constructor
      · intro h
        cases h
      · rintro ⟨u, post, h, _⟩
        cases h
    | cons y ys =>
      show (foldEq '.' y &&
        litsHere t ys (fun zs => matchHere endGroup zs (fun _ => true))) = true ↔ _
      rw [Bool.and_eq_true, foldEq_punct '.' y (by decide), litsHere_iff]
      simp only [matchHere_endGroup]
      constructor
      · rintro ⟨rfl, u, post, rfl, hf, hp⟩
        exact ⟨u, post, rfl, hf, hp⟩
      · rintro ⟨u, post, h, hf, hp⟩
        rw [List.cons.injEq] at h
        exact ⟨h.1, u, post, h.2, hf, hp⟩
  constructor
  · rintro ⟨pre, suf, rfl, h⟩
    obtain ⟨u, post, rfl, hf, hp⟩ := (hm suf).mp h
    exact ⟨pre, u, post, rfl, hf, hp⟩
  · rintro ⟨pre, u, post, rfl, hf, hp⟩
    exact ⟨pre, _, rfl, (hm _).mpr ⟨u, post, rfl, hf, hp⟩⟩

theorem trimPrefix_dot (dot : Bool) (t : List Char) (ht : ∀ c ∈ t, c.isAlphanum = true) :
    TrimPrefix ⟨(if dot then ['.'] else []) ++ t⟩ "." = ⟨t⟩ := by
  cases dot with
  | true =>
    show (if ['.'].isPrefixOf ('.' :: t) then String.mk (('.' :: t).drop 1) else ⟨'.' :: t⟩) = _
    simp [List.isPrefixOf]
  | false =>
    cases t with
    | nil => rfl
    | cons a as =>
      have ha : ('.' == a) = false := by
        have := alnum_ne a '.' (ht a (List.mem_cons_self _ _)) (by decide)
        simpa using this.symm
      show (if ['.'].isPrefixOf (a :: as) then String.mk ((a :: as).drop 1) else ⟨a :: as⟩) = _
      simp [List.isPrefixOf, ha]

/-- The pattern text that `parseFilterPatterns` hands to `regexp.Compile` for an
extension shorthand. -/
theorem parseFilterPatterns_shorthand {R : Type} (E : Regexp R) (ws₁ ws₂ t : List Char)
    (dot : Bool) (h₁ : ∀ c ∈ ws₁, isSpace c = true) (h₂ : ∀ c ∈ ws₂, isSpace c = true)
    (hne : t ≠ []) (ht : ∀ c ∈ t, c.isAlphanum = true) :
    parseFilterPatterns E ⟨ws₁ ++ ((if dot then ['.'] else []) ++ t) ++ ws₂⟩ =
      (match E.Compile ("(?i)" ++ ("\\." ++ String.mk t ++ "(\\?|#|$)")) with
       | .error err =>
         .error ("invalid pattern " ++ ("\\." ++ String.mk t ++ "(\\?|#|$)") ++ ": " ++ err)
       | .ok re => .ok [re]) := by
  have hcore : ∀ c ∈ (if dot then ['.'] else []) ++ t, c = '.' ∨ c.isAlphanum = true := by
    intro c hc
    rcases List.mem_append.mp hc with h | h
    · cases dot with
      | true => exact Or.inl (List.mem_singleton.mp h)
      | false => cases h
    · exact Or.inr (ht c h)
  have hcne : (if dot then ['.'] else []) ++ t ≠ [] := by
    intro h
    exact hne (List.append_eq_nil.mp h).2
  have hcsp : ∀ c ∈ (if dot then ['.'] else []) ++ t, isSpace c = false := by
    intro c hc
    rcases hcore c hc with rfl | h
    · decide
    · exact alnum_not_space c h
  have hnot : ∀ d : Char, isSpace d = false → d ≠ '.' → d.isAlphanum = false →
      d ∉ ws₁ ++ ((if dot then ['.'] else []) ++ t) ++ ws₂ := by
    intro d hd hdot hal hmem
    rcases List.mem_append.mp hmem with hm | hm
    · rcases List.mem_append.mp hm with hm | hm
      · rw [h₁ d hm] at hd
        cases hd
      · rcases hcore d hm with h | h
        · exact hdot h
        · rw [h] at hal
          cases hal
    · rw [h₂ d hm] at hd
      cases hd
  have hcoreNot : ∀ d : Char, d ≠ '.' → d.isAlphanum = false →
      d ∉ (if dot then ['.'] else []) ++ t := by
    intro d hdot hal hm
    rcases hcore d hm with h | h
    · exact hdot h
    · rw [h] at hal
      cases hal
  have hsplit : Split ⟨ws₁ ++ ((if dot then ['.'] else []) ++ t) ++ ws₂⟩ ',' =
      [⟨ws₁ ++ ((if dot then ['.'] else []) ++ t) ++ ws₂⟩] := by
    unfold Split
    rw [splitChars_of_not_mem ',' _ (hnot ',' (by decide) (by decide) (by decide))]
    rfl
  have hnonempty : (String.mk (ws₁ ++ ((if dot then ['.'] else []) ++ t) ++ ws₂)) ≠ "" := by
    intro h
    have hd : ws₁ ++ ((if dot then ['.'] else []) ++ t) ++ ws₂ = [] := congrArg String.data h
    exact hcne (List.append_eq_nil.mp (List.append_eq_nil.mp hd).1).2
  have htrim := trimSpace_core ws₁ ((if dot then ['.'] else []) ++ t) ws₂ h₁ h₂ hcne hcsp
  have htrimne : (String.mk ((if dot then ['.'] else []) ++ t)) ≠ "" := by
    intro h
    exact hcne (congrArg String.data h)
  have hrw : rewriteToken ⟨(if dot then ['.'] else []) ++ t⟩ =
      "\\." ++ String.mk t ++ "(\\?|#|$)" := by
    unfold rewriteToken
    rw [contains_eq_false _ '\\' (hcoreNot '\\' (by decide) (by decide)),
      contains_eq_false _ '^' (hcoreNot '^' (by decide) (by decide)),
      contains_eq_false _ '$' (hcoreNot '$' (by decide) (by decide)),
      trimPrefix_dot dot t ht]
    rfl
  unfold parseFilterPatterns
  rw [if_neg hnonempty, hsplit]
  simp only [parseFilterLoop, htrim, if_neg htrimne, hrw]
  cases E.Compile ("(?i)" ++ ("\\." ++ String.mk t ++ "(\\?|#|$)")) <;> rfl

/-! ## C1: the resolver picks the least rank -/

/-- C1. Category resolver, for a matcher set whose tags are all keys of
`categoryPriority`: when no matcher fires on the line the loop ends with no
category (`bestCat = ""`); when some matcher fires the loop ends with a
category, and that category is exactly the one that tags a firing matcher and
has the smallest `categoryPriority` rank among the tags of the firing matchers;
visiting the matchers in any other order gives the same result. -/
theorem C1_resolver_least_rank {R : Type} (E : Regexp R) (line : String)
    (visit : List (R × String)) (hk : ∀ e ∈ visit, knownCategory e.2) :
    ((∀ e ∈ visit, E.MatchString e.1 line = false) → bestCategory E visit line = "") ∧
    ((∃ e ∈ visit, E.MatchString e.1 line = true) →
      bestCategory E visit line ≠ "" ∧
      ∀ c : String, c = bestCategory E visit line ↔
        ((∃ e ∈ visit, E.MatchString e.1 line = true ∧ e.2 = c) ∧
          ∀ e ∈ visit, E.MatchString e.1 line = true → priorityOf c ≤ priorityOf e.2)) ∧
    (∀ visit' : List (R × String), visit'.Perm visit →
      bestCategory E visit' line = bestCategory E visit line) := by
  have hnone : ∀ v : List (R × String), (∀ e ∈ v, E.MatchString e.1 line = false) →
      bestCategory E v line = "" := by
    intro v hv
    simp only [bestCategory, bestLoop, foldl_bestStep_none E line v _ hv]
  have hchar : ∀ v : List (R × String), (∀ e ∈ v, knownCategory e.2) →
      (∃ e ∈ v, E.MatchString e.1 line = true) →
      ∀ c : String, c = bestCategory E v line ↔
        ((∃ e ∈ v, E.MatchString e.1 line = true ∧ e.2 = c) ∧
          ∀ e ∈ v, E.MatchString e.1 line = true → priorityOf c ≤ priorityOf e.2) := by
    intro v hv hf c
    obtain ⟨⟨e, he, hfe, hbe⟩, hmin⟩ := bestCategory_known_fired E line v hv hf
    constructor
    · rintro rfl
      exact ⟨⟨e, he, hfe, hbe⟩, hmin⟩
    · rintro ⟨⟨e', he', hfe', rfl⟩, hmin'⟩
      have h1 := hmin e' he' hfe'
      have h2 := hmin' e he hfe
      rw [hbe] at h2
      have hkb : knownCategory (bestCategory E v line) := hbe ▸ hv e he
      exact priorityOf_known_inj (hv e' he') hkb (Nat.le_antisymm h2 h1)
  refine ⟨hnone visit, ?_, ?_⟩
  · intro hf
    refine ⟨?_, hchar visit hk hf⟩
    obtain ⟨⟨e, he, _, hbe⟩, _⟩ := bestCategory_known_fired E line visit hk hf
    rw [← hbe]
    exact knownCategory_ne_empty (hk e he)
  · intro visit' hp
    have hk' : ∀ e ∈ visit', knownCategory e.2 := fun e he => hk e (hp.mem_iff.mp he)
    by_cases hf : ∃ e ∈ visit, E.MatchString e.1 line = true
    · have hf' : ∃ e ∈ visit', E.MatchString e.1 line = true := by
        obtain ⟨e, he, hfe⟩ := hf
        exact ⟨e, hp.mem_iff.mpr he, hfe⟩
      apply (hchar visit hk hf _).mpr
      obtain ⟨⟨e, he, hfe, hbe⟩, hmin⟩ := bestCategory_known_fired E line visit' hk' hf'
      exact ⟨⟨e, hp.mem_iff.mp he, hfe, hbe⟩, fun e₂ he₂ h => hmin e₂ (hp.mem_iff.mpr he₂) h⟩
    · have hn : ∀ e ∈ visit, E.MatchString e.1 line = false := by
        intro e he
        by_contra hc
        exact hf ⟨e, he, by simpa using hc⟩
      rw [hnone visit hn, hnone visit' (fun e he => hn e (hp.mem_iff.mp he))]

/-- Witness of C1: the line `a.sql.bak` against matchers for `.sql` (tag `s`),
`.bak` (tag `b`) and `.php` (tag `p`). -/
theorem C1_resolver_least_rank_witness :
    (∀ e ∈ sampleVisit, knownCategory e.2) ∧
    (((∀ e ∈ sampleVisit, goRegexp.MatchString e.1 "a.sql.bak" = false) →
        bestCategory goRegexp sampleVisit "a.sql.bak" = "") ∧
      ((∃ e ∈ sampleVisit, goRegexp.MatchString e.1 "a.sql.bak" = true) →
        bestCategory goRegexp sampleVisit "a.sql.bak" ≠ "" ∧
        ∀ c : String, c = bestCategory goRegexp sampleVisit "a.sql.bak" ↔
          ((∃ e ∈ sampleVisit, goRegexp.MatchString e.1 "a.sql.bak" = true ∧ e.2 = c) ∧
            ∀ e ∈ sampleVisit, goRegexp.MatchString e.1 "a.sql.bak" = true →
              priorityOf c ≤ priorityOf e.2)) ∧
      (∀ visit' : List (Re × String), visit'.Perm sampleVisit →
        bestCategory goRegexp visit' "a.sql.bak" = bestCategory goRegexp sampleVisit "a.sql.bak")) :=
  ⟨by decide, C1_resolver_least_rank goRegexp "a.sql.bak" sampleVisit (by decide)⟩

/-! ## C2: a category without a rank -/

/-- C2, evaluated on the code. A catalog holds the known category `b` and a
category `env` that `categoryPriority` does not list; the read
`categoryPriority["env"]` gives rank 0, below every listed rank, so on the line
`a.env.bak`, where the matchers of both categories fire, the loop ends with
`env` whichever matcher it visits first: the unranked category wins over the
known one. -/
theorem C2_unranked_category_wins :
    buildCategoryRegexMap goRegexp customPatterns ["all"] = .ok customVisit ∧
    knownCategory "b" ∧ ¬ knownCategory "env" ∧
    (∀ e ∈ customVisit, goRegexp.MatchString e.1 "a.env.bak" = true) ∧
    priorityOf "env" = 0 ∧ priorityOf "b" = 6 ∧
    bestCategory goRegexp customVisit "a.env.bak" = "env" ∧
    bestCategory goRegexp customVisit.reverse "a.env.bak" = "env" := by
  decide

/-! ## C3: deduplication -/

/-- C3. Deduplication: the run with `-u` emits the same lines and ends with the
same counters as the run without `-u` on the input from which every occurrence
of a line after its first has been removed; no line string is emitted twice,
and the emissions and counts together are at most one per distinct input line.
The reduced input is a subsequence of the input, has no repeated line, holds
every line of the input, and keeps an appended line exactly when that line does
not occur before it. -/
theorem C3_dedup_once {R : Type} (E : Regexp R) (fl : Flags) (exc inc : List R)
    (input : List (String × List (R × String))) :
    (scanLoop E { fl with flagUnique := true } exc inc {} input).emitted =
      (scanLoop E { fl with flagUnique := false } exc inc {} (firstOccurrences input)).emitted ∧
    (scanLoop E { fl with flagUnique := true } exc inc {} input).categoryStats =
      (scanLoop E { fl with flagUnique := false } exc inc {}
        (firstOccurrences input)).categoryStats ∧
    ((scanLoop E { fl with flagUnique := true } exc inc {} input).emitted.map
      Emission.line).Nodup ∧
    (scanLoop E { fl with flagUnique := true } exc inc {} input).emitted.length +
        totalMatches (scanLoop E { fl with flagUnique := true } exc inc {} input).categoryStats ≤
      ((input.map Prod.fst).dedup).length ∧
    (firstOccurrences input).Sublist input ∧
    ((firstOccurrences input).map Prod.fst).Nodup ∧
    (∀ e ∈ input, e.1 ∈ (firstOccurrences input).map Prod.fst) ∧
    (∀ (xs : List (String × List (R × String))) (e : String × List (R × String)),
      firstOccurrences (xs ++ [e]) =
        if e.1 ∈ xs.map Prod.fst then firstOccurrences xs else firstOccurrences xs ++ [e]) := by
  have hspec : (firstOccurrences input).Sublist input ∧
      ((firstOccurrences input).map Prod.fst).Nodup ∧
      (∀ e ∈ firstOccurrences input, e.1 ∉ ([] : List String)) ∧
      (∀ e ∈ input, e.1 ∉ ([] : List String) → e.1 ∈ (firstOccurrences input).map Prod.fst) :=
    dropRepeats_spec ([] : List String) input
  obtain ⟨hsub, hnd, _, hall⟩ := hspec
  have hsnoc : ∀ (xs : List (String × List (R × String))) (e : String × List (R × String)),
      firstOccurrences (xs ++ [e]) =
        if e.1 ∈ xs.map Prod.fst then firstOccurrences xs else firstOccurrences xs ++ [e] := by
    intro xs e
    have h := dropRepeats_snoc ([] : List String) xs e
    have hiff : (e.1 ∈ ([] : List String) ∨ e.1 ∈ xs.map Prod.fst) ↔ e.1 ∈ xs.map Prod.fst :=
      ⟨fun h => h.elim (fun h' => absurd h' (List.not_mem_nil _)) id, Or.inr⟩
    unfold firstOccurrences
    rw [h]
    by_cases hq : e.1 ∈ xs.map Prod.fst
    · rw [if_pos (hiff.mpr hq), if_pos hq]
    · rw [if_neg (fun h' => hq (hiff.mp h')), if_neg hq]
  obtain ⟨h1, h2, h3, h4⟩ := processAll_dedup E fl exc inc (linesRead input)
  have hlen : (firstOccurrences (linesRead input)).length ≤
      ((input.map Prod.fst).dedup).length := by
    rw [firstOccurrences_linesRead, ← firstOccurrences_length]
    exact (linesRead_sublist _).length_le
  rw [scanLoop_eq_processAll E _ exc inc {} input,
    scanLoop_eq_processAll E _ exc inc {} (firstOccurrences input),
    ← firstOccurrences_linesRead]
  exact ⟨h1, h2, h3, le_trans h4 hlen, hsub, hnd,
    fun e he => hall e he (List.not_mem_nil _), hsnoc⟩

/-! ## C4: exclude precedence -/

/-- C4. Exclude precedence: when some pattern of the exclude list matches the
line, the loop body neither emits nor counts the line, whatever the include
list, the matcher set and the flags. -/
theorem C4_exclude_precedence {R : Type} (E : Regexp R) (fl : Flags) (exc inc : List R)
    (st : LoopState) (line : String) (visit : List (R × String))
    (hx : ∃ re ∈ exc, E.MatchString re line = true) :
    (processLine E fl exc inc st line visit).emitted = st.emitted ∧
    (processLine E fl exc inc st line visit).categoryStats = st.categoryStats := by
  have hk := not_keeps_of_excluded E exc inc line visit hx
  unfold processLine
  by_cases hu : fl.flagUnique = true
  · rw [if_pos hu]
    by_cases hs : st.seenURLs.contains line = true
    · rw [if_pos hs]
      exact ⟨rfl, rfl⟩
    · rw [if_neg hs, classifyLine_eq, hk]
      exact ⟨rfl, rfl⟩
  · rw [if_neg hu, classifyLine_eq, hk]
    exact ⟨rfl, rfl⟩

/-- Witness of C4: the line `b.js` with exclude `js` and include `js`, while the
`.js` matcher of category `j` fires. -/
theorem C4_exclude_precedence_witness :
    (∃ re ∈ [dotExtEnd "js".data], goRegexp.MatchString re "b.js" = true) ∧
    ((processLine goRegexp {} [dotExtEnd "js".data] [dotExtEnd "js".data] {} "b.js"
        [(dotExt "js".data, "j")]).emitted = ({} : LoopState).emitted ∧
      (processLine goRegexp {} [dotExtEnd "js".data] [dotExtEnd "js".data] {} "b.js"
        [(dotExt "js".data, "j")]).categoryStats = ({} : LoopState).categoryStats) :=
  ⟨by decide, C4_exclude_precedence goRegexp {} [dotExtEnd "js".data] [dotExtEnd "js".data] {}
    "b.js" [(dotExt "js".data, "j")] (by decide)⟩

/-! ## C5: extension shorthand -/

/-- C5. Extension shorthand: a filter token made of letters and digits `t`,
optionally written with one leading dot and surrounding white space, yields
exactly one filter, and that filter matches a line if and only if the line
contains a dot, followed by characters equal to those of `t` up to case, followed
by `?`, by `#` or by the end of the line. -/
theorem C5_extension_shorthand (ws₁ ws₂ t : List Char) (dot : Bool)
    (h₁ : ∀ c ∈ ws₁, isSpace c = true) (h₂ : ∀ c ∈ ws₂, isSpace c = true)
    (hne : t ≠ []) (ht : ∀ c ∈ t, c.isAlphanum = true) :
    ∃ re, parseFilterPatterns goRegexp ⟨ws₁ ++ ((if dot then ['.'] else []) ++ t) ++ ws₂⟩ =
        .ok [re] ∧
      ∀ line : String, matchesAnyPattern goRegexp line [re] = true ↔
        ∃ pre u post, line.data = pre ++ '.' :: (u ++ post) ∧
          List.Forall₂ (fun p c => foldEq p c = true) t u ∧
          (post = [] ∨ post.head? = some '?' ∨ post.head? = some '#') := by
  refine ⟨dotExtEnd t, ?_, ?_⟩
  · rw [parseFilterPatterns_shorthand goRegexp ws₁ ws₂ t dot h₁ h₂ hne ht,
      compile_extension t ht]
  · intro line
    rw [← search_dotExtEnd t line.data]
    show (if searchFrom (dotExtEnd t) line.data = true then true else false) = true ↔ _
    cases searchFrom (dotExtEnd t) line.data <;> simp

/-- Witness of C5: the token `js`; it matches `app.js` and `app.js?v=2` and does
not match `jsonthing.php`. -/
theorem C5_extension_shorthand_witness :
    ((∀ c ∈ ([] : List Char), isSpace c = true) ∧ "js".data ≠ [] ∧
      ∀ c ∈ "js".data, c.isAlphanum = true) ∧
    (∃ re, parseFilterPatterns goRegexp
          ⟨[] ++ ((if false then ['.'] else []) ++ "js".data) ++ []⟩ = .ok [re] ∧
        ∀ line : String, matchesAnyPattern goRegexp line [re] = true ↔
          ∃ pre u post, line.data = pre ++ '.' :: (u ++ post) ∧
            List.Forall₂ (fun p c => foldEq p c = true) "js".data u ∧
            (post = [] ∨ post.head? = some '?' ∨ post.head? = some '#')) ∧
    (∃ re, parseFilterPatterns goRegexp "js" = .ok [re] ∧
      matchesAnyPattern goRegexp "app.js" [re] = true ∧
      matchesAnyPattern goRegexp "app.js?v=2" [re] = true ∧
      matchesAnyPattern goRegexp "jsonthing.php" [re] = false) :=
  ⟨⟨by decide, by decide, by decide⟩,
    C5_extension_shorthand [] [] "js".data false (by decide) (by decide) (by decide)
      (by decide),
    ⟨dotExtEnd "js".data, by decide, by decide, by decide, by decide⟩⟩

/-! ## C6: tokens passed through -/

/-- C6 as stated fails: the token `a.*b` holds the regular-expression
metacharacters `.` and `*`, yet the pattern compiled for it is not the token
with the `(?i)` prefix but the extension rewriting of it. -/
theorem C6_metachar_token_rewritten :
    (∃ c ∈ "a.*b".data, isRegexMeta c = true) ∧
    parseFilterPatterns sourceRegexp "a.*b" = .ok ["(?i)\\.a.*b(\\?|#|$)"] ∧
    parseFilterPatterns sourceRegexp "a.*b" ≠ .ok ["(?i)" ++ "a.*b"] := by
  decide

/-- C6, amended. A filter token that holds a backslash, a caret or a dollar sign
is passed through: the loop of `parseFilterPatterns` leaves it unrewritten and
compiles the token, trimmed of surrounding white space, with only the prefix
`(?i)` added; the error of a failed compilation names that trimmed token. -/
theorem C6_anchor_token_passthrough {R : Type} (E : Regexp R) (tok : String)
    (rest : List String) (regexes : List R)
    (hm : Contains tok '\\' = true ∨ Contains tok '^' = true ∨ Contains tok '$' = true) :
    rewriteToken (TrimSpace tok) = TrimSpace tok ∧
    parseFilterLoop E (tok :: rest) regexes =
      (match E.Compile ("(?i)" ++ TrimSpace tok) with
       | .error err => .error ("invalid pattern " ++ TrimSpace tok ++ ": " ++ err)
       | .ok re => parseFilterLoop E rest (regexes ++ [re])) := by
  have hm' : Contains (TrimSpace tok) '\\' = true ∨ Contains (TrimSpace tok) '^' = true ∨
      Contains (TrimSpace tok) '$' = true := by
    rcases hm with h | h | h
    · exact Or.inl (contains_trimSpace tok _ (by decide) h)
    · exact Or.inr (Or.inl (contains_trimSpace tok _ (by decide) h))
    · exact Or.inr (Or.inr (contains_trimSpace tok _ (by decide) h))
  have hne : TrimSpace tok ≠ "" := by
    rcases hm' with h | h | h <;> exact ne_empty_of_contains _ _ h
  have hrw : rewriteToken (TrimSpace tok) = TrimSpace tok := by
    unfold rewriteToken
    rcases hm' with h | h | h <;> simp [h]
  refine ⟨hrw, ?_⟩
  simp only [parseFilterLoop, hrw, if_neg hne]

/-- Witness of C6, amended: the token ` ^x$ ` in front of the token `js`. -/
theorem C6_anchor_token_passthrough_witness :
    (Contains " ^x$ " '\\' = true ∨ Contains " ^x$ " '^' = true ∨
      Contains " ^x$ " '$' = true) ∧
    (rewriteToken (TrimSpace " ^x$ ") = TrimSpace " ^x$ " ∧
      parseFilterLoop sourceRegexp (" ^x$ " :: ["js"]) [] =
        (match sourceRegexp.Compile ("(?i)" ++ TrimSpace " ^x$ ") with
         | .error err => .error ("invalid pattern " ++ TrimSpace " ^x$ " ++ ": " ++ err)
         | .ok re => parseFilterLoop sourceRegexp ["js"] ([] ++ [re]))) :=
  ⟨by decide, C6_anchor_token_passthrough sourceRegexp " ^x$ " ["js"] [] (by decide)⟩

/-! ## C7: statistics totals -/

/-- C7 as stated fails. The input is `a.sql`, a line of 65536 letters, and
`index.php`. The scanner gives up at the second line, so the statistics run ends
with a total of 1 and the normal run emits one line, while two input lines
(`a.sql` and `index.php`) pass dedup and the filters and win a category. -/
theorem C7_total_misses_lines_after_long_line :
    totalMatches
      (scanLoop goRegexp { ({} : Flags) with flagStats := true } [] [] {}
        longInput).categoryStats = 1 ∧
    (scanLoop goRegexp { ({} : Flags) with flagStats := false } [] [] {}
      longInput).emitted.length = 1 ∧
    2 ≤ (survivors goRegexp {} [] [] longInput).length := by
  refine ⟨?_, ?_, ?_⟩
  · rw [scanLoop_longInput]
    decide
  · rw [scanLoop_longInput]
    decide
  · have hsub : [("a.sql", sampleVisit), ("index.php", sampleVisit)].Sublist longInput :=
      (List.Sublist.refl _).cons₂ _ |>.cons _ |>.cons₂ _
    have hfil := hsub.filter (keeps goRegexp [] [])
    have hlen := hfil.length_le
    have h2 : ([("a.sql", sampleVisit), ("index.php", sampleVisit)].filter
        (keeps goRegexp [] [])).length = 2 := by decide
    rw [h2] at hlen
    exact hlen

/-- C7, amended. At the end of a statistics-mode run, the total accumulated over
the per-category counters, in whatever order the counters are visited, equals
the number of lines read (those before the end of the input or before the first
line of 65536 bytes or more) that survived dedup and the filters and won a
category; a normal-mode run with the same configuration emits that same number
of lines. When no input line is that long, the lines read are all the input
lines. -/
theorem C7_stats_total {R : Type} (E : Regexp R) (fl : Flags) (exc inc : List R)
    (input : List (String × List (R × String))) (visit : List (String × Nat))
    (hv : visit.Perm (scanLoop E { fl with flagStats := true } exc inc {} input).categoryStats) :
    totalMatches visit = (survivors E fl exc inc (linesRead input)).length ∧
    (scanLoop E { fl with flagStats := false } exc inc {} input).emitted.length =
      (survivors E fl exc inc (linesRead input)).length ∧
    ((∀ e ∈ input, tooLong e.1 = false) → linesRead input = input) := by
  rw [scanLoop_eq_processAll] at hv
  rw [scanLoop_eq_processAll]
  have hs := (processAll_survivors E { fl with flagStats := true } exc inc (linesRead input)).2
  have he := (processAll_survivors E { fl with flagStats := false } exc inc (linesRead input)).1
  have hsv1 : survivors E { fl with flagStats := true } exc inc (linesRead input) =
      survivors E fl exc inc (linesRead input) := rfl
  have hsv2 : survivors E { fl with flagStats := false } exc inc (linesRead input) =
      survivors E fl exc inc (linesRead input) := rfl
  rw [hsv1] at hs
  rw [hsv2] at he
  refine ⟨?_, ?_, linesRead_of_all_short input⟩
  · rw [totalMatches_eq_sum, (hv.map Prod.snd).sum_eq, hs]
    simp [applyKept, foldl_increment_sum]
  · rw [he]
    simp [applyKept]

/-- Witness of C7, amended: the input with the long line; the only counter is
the one of `s`. -/
theorem C7_stats_total_witness :
    [("s", 1)].Perm
      (scanLoop goRegexp { ({} : Flags) with flagStats := true } [] [] {} longInput).categoryStats ∧
    (totalMatches [("s", 1)] = (survivors goRegexp {} [] [] (linesRead longInput)).length ∧
      (scanLoop goRegexp { ({} : Flags) with flagStats := false } [] [] {} longInput).emitted.length =
        (survivors goRegexp {} [] [] (linesRead longInput)).length ∧
      ((∀ e ∈ longInput, tooLong e.1 = false) → linesRead longInput = longInput)) :=
  have hv : [("s", 1)].Perm
      (scanLoop goRegexp { ({} : Flags) with flagStats := true } [] [] {}
        longInput).categoryStats := by
    rw [scanLoop_longInput]
    decide
  ⟨hv, C7_stats_total goRegexp {} [] [] longInput [("s", 1)] hv⟩

/-! ## C8: stream order -/

/-- C8 as stated fails. On the input `a.sql`, a line of 65536 letters,
`index.php`, the normal-mode run emits `a.sql` only, although `index.php`
passes dedup, exclude and include and wins a category: the scanner gives up at
the long line and the later line is never read. -/
theorem C8_line_after_long_line_not_emitted :
    (scanLoop goRegexp {} [] [] {} longInput).emitted.map Emission.line = ["a.sql"] ∧
    "index.php" ∈ (survivors goRegexp {} [] [] longInput).map Prod.fst := by
  constructor
  · rw [scanLoop_longInput]
    decide
  · have hmem : ("index.php", sampleVisit) ∈ longInput :=
      List.mem_cons_of_mem _ (List.mem_cons_of_mem _ (List.mem_cons_self _ _))
    have hk : keeps goRegexp [] [] ("index.php", sampleVisit) = true := by decide
    have hs : ("index.php", sampleVisit) ∈ survivors goRegexp {} [] [] longInput :=
      List.mem_filter.mpr ⟨hmem, hk⟩
    exact List.mem_map.mpr ⟨_, hs, rfl⟩

/-- C8, amended. In normal mode the emissions are, in input order, exactly the
lines read (those before the end of the input or before the first line of 65536
bytes or more) that survive dedup, exclude and include and win a category, each
with the category it won; the emitted lines form a subsequence of the input
lines; the text written for a line is `colorize` of that unaltered line, which
is the line itself when colour is off (`-no-color` or `-o`). When no input line
is that long, the lines read are all the input lines. -/
theorem C8_stream_order {R : Type} (E : Regexp R) (fl : Flags) (exc inc : List R)
    (input : List (String × List (R × String))) (hn : fl.flagStats = false) :
    (scanLoop E fl exc inc {} input).emitted =
      (survivors E fl exc inc (linesRead input)).map (emissionOf E fl) ∧
    (scanLoop E fl exc inc {} input).emitted.map Emission.line =
      (survivors E fl exc inc (linesRead input)).map Prod.fst ∧
    ((scanLoop E fl exc inc {} input).emitted.map Emission.line).Sublist (input.map Prod.fst) ∧
    (scanLoop E fl exc inc {} input).emitted.map Emission.text =
      (scanLoop E fl exc inc {} input).emitted.map
        (fun em => colorize fl em.line (colorOf em.category)) ∧
    (if fl.flagNoColor || fl.flagOutputFile != "" then
      (scanLoop E fl exc inc {} input).emitted.map Emission.text =
        (scanLoop E fl exc inc {} input).emitted.map Emission.line
     else
      (scanLoop E fl exc inc {} input).emitted.map Emission.text =
        (scanLoop E fl exc inc {} input).emitted.map
          (fun em => colorOf em.category ++ em.line ++ colorReset)) ∧
    ((∀ e ∈ input, tooLong e.1 = false) → linesRead input = input) := by
  have he : (scanLoop E fl exc inc {} input).emitted =
      (survivors E fl exc inc (linesRead input)).map (emissionOf E fl) := by
    rw [scanLoop_eq_processAll, (processAll_survivors E fl exc inc (linesRead input)).1]
    simp [applyKept, hn]
  have hl : (scanLoop E fl exc inc {} input).emitted.map Emission.line =
      (survivors E fl exc inc (linesRead input)).map Prod.fst := by
    rw [he, List.map_map]
    rfl
  refine ⟨he, hl, ?_, ?_, ?_, linesRead_of_all_short input⟩
  · rw [hl]
    exact ((survivors_sublist E fl exc inc (linesRead input)).trans
      (linesRead_sublist input)).map Prod.fst
  · rw [he, List.map_map, List.map_map]
    rfl
  · by_cases hc : (fl.flagNoColor || fl.flagOutputFile != "") = true
    · rw [if_pos hc, he, List.map_map, List.map_map]
      apply List.map_congr_left
      intro e _
      simp only [Function.comp, emissionOf, colorize, hc, if_true]
    · rw [if_neg hc, he, List.map_map, List.map_map]
      apply List.map_congr_left
      intro e _
      simp only [Function.comp, emissionOf, colorize, hc]
      rfl

/-- Witness of C8, amended: the input with the long line in normal mode with
colour on. -/
theorem C8_stream_order_witness :
    ({} : Flags).flagStats = false ∧
    ((scanLoop goRegexp {} [] [] {} longInput).emitted =
        (survivors goRegexp {} [] [] (linesRead longInput)).map (emissionOf goRegexp {}) ∧
      (scanLoop goRegexp {} [] [] {} longInput).emitted.map Emission.line =
        (survivors goRegexp {} [] [] (linesRead longInput)).map Prod.fst ∧
      ((scanLoop goRegexp {} [] [] {} longInput).emitted.map Emission.line).Sublist
        (longInput.map Prod.fst) ∧
      (scanLoop goRegexp {} [] [] {} longInput).emitted.map Emission.text =
        (scanLoop goRegexp {} [] [] {} longInput).emitted.map
          (fun em => colorize {} em.line (colorOf em.category)) ∧
      (if ({} : Flags).flagNoColor || ({} : Flags).flagOutputFile != "" then
        (scanLoop goRegexp {} [] [] {} longInput).emitted.map Emission.text =
          (scanLoop goRegexp {} [] [] {} longInput).emitted.map Emission.line
       else
        (scanLoop goRegexp {} [] [] {} longInput).emitted.map Emission.text =
          (scanLoop goRegexp {} [] [] {} longInput).emitted.map
            (fun em => colorOf em.category ++ em.line ++ colorReset)) ∧
      ((∀ e ∈ longInput, tooLong e.1 = false) → linesRead longInput = longInput)) :=
  ⟨rfl, C8_stream_order goRegexp {} [] [] longInput rfl⟩

/-! ## C9: the matcher builder fails as a whole -/

/-- C9. `buildCategoryRegexMap` fails exactly when some requested pattern does
not compile with the `(?i)` prefix; a failure is an error without any matcher
set, whose text names a requested pattern that does not compile and the
category owning it; a success holds one matcher per requested pattern, in
order, each compiled from its pattern and tagged with the owning category.
The requested patterns are those of every catalog category for an `"all"` and
those of each other requested category that the catalog holds. -/
theorem C9_build_all_or_nothing {R : Type} (E : Regexp R) (pf : PatternFile)
    (cats : List String) :
    ((∃ msg, buildCategoryRegexMap E pf cats = .error msg) ↔
      ∃ kp ∈ requestedPatterns pf cats, ∃ err, E.Compile ("(?i)" ++ kp.2) = .error err) ∧
    (∀ msg, buildCategoryRegexMap E pf cats = .error msg →
      ∃ kp ∈ requestedPatterns pf cats, ∃ err,
        E.Compile ("(?i)" ++ kp.2) = .error err ∧
        msg = "failed to compile pattern " ++ kp.2 ++ " for category " ++ kp.1 ++ ": " ++ err) ∧
    (∀ entries, buildCategoryRegexMap E pf cats = .ok entries →
      List.Forall₂ (fun kp e => E.Compile ("(?i)" ++ kp.2) = .ok e.1 ∧ e.2 = kp.1)
        (requestedPatterns pf cats) entries) ∧
    (∀ kp : String × String, kp ∈ requestedPatterns pf cats ↔
      ∃ cat ∈ cats,
        (cat = "all" ∧ ∃ kc ∈ pf.Categories, kc.1 = kp.1 ∧ kp.2 ∈ kc.2.Patterns) ∨
        (cat ≠ "all" ∧ cat = kp.1 ∧
          ∃ catData, pf.Categories.lookup cat = some catData ∧ kp.2 ∈ catData.Patterns)) := by
  have hout := buildLoop_outcome E pf cats ([] : List (R × String))
  have herr : ∀ msg, buildCategoryRegexMap E pf cats = .error msg →
      ∃ kp ∈ requestedPatterns pf cats, ∃ err,
        E.Compile ("(?i)" ++ kp.2) = .error err ∧
        msg = "failed to compile pattern " ++ kp.2 ++ " for category " ++ kp.1 ++ ": " ++ err := by
    intro msg hm
    unfold buildCategoryRegexMap at hm
    rw [hm] at hout
    exact hout
  have hok : ∀ entries, buildCategoryRegexMap E pf cats = .ok entries →
      List.Forall₂ (fun kp e => E.Compile ("(?i)" ++ kp.2) = .ok e.1 ∧ e.2 = kp.1)
        (requestedPatterns pf cats) entries := by
    intro entries hm
    unfold buildCategoryRegexMap at hm
    rw [hm] at hout
    obtain ⟨added, hadd, hf⟩ := hout
    rw [List.nil_append] at hadd
    rw [hadd]
    exact hf
  refine ⟨⟨?_, ?_⟩, herr, hok, ?_⟩
  · rintro ⟨msg, hm⟩
    obtain ⟨kp, hkp, err, he, _⟩ := herr msg hm
    exact ⟨kp, hkp, err, he⟩
  · rintro ⟨kp, hkp, err, he⟩
    cases hb : buildCategoryRegexMap E pf cats with
    | error msg => exact ⟨msg, rfl⟩
    | ok entries =>
      exfalso
      have hf := hok entries hb
      obtain ⟨e, _, hc, _⟩ := forall₂_exists_right hf hkp
      rw [he] at hc
      cases hc
  · intro kp
    simp only [requestedPatterns, List.mem_flatMap]
    constructor
    · rintro ⟨cat, hcat, hmem⟩
      refine ⟨cat, hcat, ?_⟩
      by_cases hall : cat = "all"
      · left
        rw [if_pos hall] at hmem
        obtain ⟨kc, hkc, hkp⟩ := List.mem_flatMap.mp hmem
        obtain ⟨p, hp, rfl⟩ := List.mem_map.mp hkp
        exact ⟨hall, kc, hkc, rfl, hp⟩
      · right
        rw [if_neg hall] at hmem
        cases hl : pf.Categories.lookup cat with
        | none => rw [hl] at hmem; cases hmem
        | some catData =>
          rw [hl] at hmem
          obtain ⟨p, hp, rfl⟩ := List.mem_map.mp hmem
          exact ⟨hall, rfl, catData, rfl, hp⟩
    · rintro ⟨cat, hcat, h⟩
      refine ⟨cat, hcat, ?_⟩
      rcases h with ⟨hall, kc, hkc, hk, hp⟩ | ⟨hall, hk, catData, hl, hp⟩
      · rw [if_pos hall]
        exact List.mem_flatMap.mpr ⟨kc, hkc, List.mem_map.mpr ⟨kp.2, hp, by rw [hk]⟩⟩
      · rw [if_neg hall, hl]
        exact List.mem_map.mpr ⟨kp.2, hp, by rw [hk]⟩

/-! ## C10: a selection of unknown categories -/

/-- C10. Unknown category selection: when the requested list has no `"all"` and
names only identifiers that the catalog does not hold, `buildCategoryRegexMap`
returns the empty matcher set without error, and `main` (past the `-list`
branch) ends with the message `No valid patterns found for the selected
categories` on standard error, whatever the input: no line is read, counted or
emitted. -/
theorem C10_unknown_selection {R : Type} (E : Regexp R) (orders : MapOrders R) (fl : Flags)
    (pf : PatternFile) (cats : List String) (created : Except String Unit)
    (input : List String)
    (hall : "all" ∉ cats) (habs : ∀ cat ∈ cats, cat ∉ pf.Categories.map Prod.fst)
    (hl : fl.flagList = false) :
    buildCategoryRegexMap E pf cats = .ok [] ∧
    mainWith E orders fl pf cats created input =
      .fatal "No valid patterns found for the selected categories\n" := by
  have hb : ∀ (cats : List String) (result : List (R × String)), "all" ∉ cats →
      (∀ cat ∈ cats, cat ∉ pf.Categories.map Prod.fst) →
      buildLoop E pf cats result = .ok result := by
    intro cats
    induction cats with
    | nil => intro result _ _; rfl
    | cons cat cats ih =>
      intro result h₁ h₂
      have hne : cat ≠ "all" := fun h => h₁ (h ▸ List.mem_cons_self _ _)
      have hlk := lookup_absent pf.Categories cat (h₂ cat (List.mem_cons_self _ _))
      simp only [buildLoop, hne, if_false, hlk]
      exact ih result (fun h => h₁ (List.mem_cons_of_mem _ h))
        (fun c hc => h₂ c (List.mem_cons_of_mem _ hc))
  have hbuild : buildCategoryRegexMap E pf cats = .ok [] := hb cats [] hall habs
  refine ⟨hbuild, ?_⟩
  simp [mainWith, hl, hbuild]

/-- Witness of C10: the identifiers `zz` and `old` requested from the sample
catalog. -/
theorem C10_unknown_selection_witness :
    "all" ∉ ["zz", "old"] ∧
    (∀ cat ∈ ["zz", "old"], cat ∉ samplePatterns.Categories.map Prod.fst) ∧
    ({} : Flags).flagList = false ∧
    (buildCategoryRegexMap goRegexp samplePatterns ["zz", "old"] = .ok [] ∧
      mainWith goRegexp listedOrders {} samplePatterns ["zz", "old"] (.ok ())
          ["a.sql.bak", "index.php"] =
        .fatal "No valid patterns found for the selected categories\n") :=
  ⟨by decide, by decide, rfl,
    C10_unknown_selection goRegexp listedOrders {} samplePatterns ["zz", "old"] (.ok ())
      ["a.sql.bak", "index.php"] (by decide) (by decide) rfl⟩

/-! ## Evaluations on sample data -/

/-- The reference engine compiles the sample catalog to the sample matcher set. -/
theorem sample_build :
    buildCategoryRegexMap goRegexp samplePatterns ["all"] = .ok sampleVisit := by
  decide

/-- On `a.sql.bak` the sample matcher set resolves to the backup category. -/
theorem sample_resolve : bestCategory goRegexp sampleVisit "a.sql.bak" = "b" := by
  decide

/-- A normal-mode run of `main` over three lines with colour on. -/
theorem sample_main :
    mainWith goRegexp listedOrders {} samplePatterns ["all"] (.ok ())
        ["a.sql.bak", "index.php", "b.js"] =
      .finished
        { emitted :=
            [{ line := "a.sql.bak", category := "b", text := "\x1b[33ma.sql.bak\x1b[0m" },
             { line := "index.php", category := "p", text := "\x1b[34mindex.php\x1b[0m" }] }
        ["\x1b[33ma.sql.bak\x1b[0m", "\x1b[34mindex.php\x1b[0m"] "" := by
  decide

/-- The same run with the exclude list `php`: `index.php` is dropped. -/
theorem sample_main_exclude :
    mainWith goRegexp listedOrders { flagExclude := "php", flagNoColor := true } samplePatterns
        ["all"] (.ok ()) ["a.sql.bak", "index.php", "b.js"] =
      .finished { emitted := [{ line := "a.sql.bak", category := "b", text := "a.sql.bak" }] }
        ["a.sql.bak"] "" := by
  decide

/-- With `-list` and the default selection the listing looks up the key `all`
in the catalog. -/
theorem sample_list_default :
    main goRegexp listedOrders { flagList := true } (.ok samplePatterns) (.ok ()) [] =
      .listed ["Unknown category key: all"] := by
  decide

/-- Input `x.env`, `x.env`, `y.bak` with `-u -stats`: the second `x.env` is
suppressed, the counters are one for `c`, one for `b`, and the total is 2. -/
theorem sample_dedup_stats :
    (scanLoop goRegexp { flagUnique := true, flagStats := true } [] [] {} repeatedInput).categoryStats =
      [("c", 1), ("b", 1)] ∧
    totalMatches
      (scanLoop goRegexp { flagUnique := true, flagStats := true } [] [] {}
        repeatedInput).categoryStats = 2 ∧
    (scanLoop goRegexp { flagUnique := false, flagStats := true } [] [] {}
        repeatedInput).categoryStats = [("c", 2), ("b", 1)] := by
  decide

/-- A run of `main` over `a.sql`, a line of 65536 letters and `index.php`: the
loop ends at the long line, `a.sql` alone is written, and the scanner error is
reported on standard error. -/
theorem sample_main_long_line :
    mainWith goRegexp listedOrders {} samplePatterns ["all"] (.ok ())
        ["a.sql", longLine, "index.php"] =
      .finished
        { emitted := [{ line := "a.sql", category := "s", text := "\x1b[31ma.sql\x1b[0m" }] }
        ["\x1b[31ma.sql\x1b[0m"] "Error reading input: bufio.Scanner: token too long\n" := by
  have hat : attachOrders listedOrders.regexMap sampleVisit 0
      ["a.sql", longLine, "index.php"] = longInput := rfl
  have hp : processLine goRegexp {} [] [] {} "a.sql" sampleVisit =
      { emitted := [{ line := "a.sql", category := "s", text := "\x1b[31ma.sql\x1b[0m" }] } := by
    decide
  have hst : scanLoop goRegexp {} [] [] {}
      (attachOrders listedOrders.regexMap sampleVisit 0 ["a.sql", longLine, "index.php"]) =
      { emitted := [{ line := "a.sql", category := "s", text := "\x1b[31ma.sql\x1b[0m" }] } := by
    rw [hat, scanLoop_longInput, hp]
  have herr : scannerErr
      (attachOrders listedOrders.regexMap sampleVisit 0 ["a.sql", longLine, "index.php"]) =
      some "bufio.Scanner: token too long" := by
    rw [hat, scannerErr_longInput]
  rw [mainWith_scanner_error goRegexp listedOrders {} samplePatterns ["all"] (.ok ()) _
    sampleVisit [] [] rfl (by decide) (by decide) rfl rfl rfl _ hst _ herr]
  rfl

end Riya
